import Mathlib

/-!
# Verification of the zplsc_b EK60 echogram parser

Shallow embedding of `mi/instrument/kut/ek60/ooicore/zplsc_b.py`:
the sample-datagram decoder (`process_sample`), the block scanner loop of
`parse_echogram_file`, the ping-aggregation state machine of the same
function, the Windows/NTP time codec (`windows_to_ntp`,
`build_windows_time`), and the Sv conversion (`power2Sv`).

Bytes are modelled as `ℕ` (values < 256 in well-formed streams), machine
integers as `ℤ` with explicit two's-complement decoding, Python floats as
exact `ℚ`/`ℝ` arithmetic.  IEEE-754 `f32` payload fields of the sample
datagram are carried as their raw 32-bit little-endian words (`ℕ`): the
parser itself never computes with them, it only moves them around, so the
bit-level identity is the faithful statement of "decoded equals encoded".
-/

/-! ## Little-endian byte codecs

`numpy` unpacks the sample datagram with dtype `<i2`/`<i4`/`<u4` fields;
these are the corresponding readers and writers over byte lists. -/

/-- Unsigned 16-bit value of two little-endian bytes. -/
def u16v (a b : ℕ) : ℕ := a + 256 * b

/-- Unsigned 32-bit value of four little-endian bytes. -/
def u32v (a b c d : ℕ) : ℕ := a + 256 * b + 65536 * c + 16777216 * d

/-- Two's-complement reinterpretation of a 16-bit word (numpy `<i2`). -/
def toI16 (u : ℕ) : ℤ := if u < 32768 then (u : ℤ) else (u : ℤ) - 65536

/-- Two's-complement reinterpretation of a 32-bit word (numpy `<i4`). -/
def toI32 (u : ℕ) : ℤ := if u < 2147483648 then (u : ℤ) else (u : ℤ) - 4294967296

/-- Signed 16-bit value of two little-endian bytes. -/
def i16v (a b : ℕ) : ℤ := toI16 (u16v a b)

/-- Signed 32-bit value of four little-endian bytes. -/
def i32v (a b c d : ℕ) : ℤ := toI32 (u32v a b c d)

/-- Little-endian bytes of an unsigned 16-bit value. -/
def le16 (n : ℕ) : List ℕ := [n % 256, n / 256 % 256]

/-- Little-endian bytes of an unsigned 32-bit value. -/
def le32 (n : ℕ) : List ℕ := [n % 256, n / 256 % 256, n / 65536 % 256, n / 16777216 % 256]

/-- Little-endian bytes of a signed 16-bit value. -/
def le16i (z : ℤ) : List ℕ := le16 (z % 65536).toNat

/-- Little-endian bytes of a signed 32-bit value. -/
def le32i (z : ℤ) : List ℕ := le32 (z % 4294967296).toNat

/-- `z` fits numpy `<i2`. -/
def I16Range (z : ℤ) : Prop := -32768 ≤ z ∧ z < 32768

/-- `z` fits numpy `<i4`. -/
def I32Range (z : ℤ) : Prop := -2147483648 ≤ z ∧ z < 2147483648

/-- `n` fits numpy `<u4` (also used for raw `f4` bit words). -/
def U32Range (n : ℕ) : Prop := n < 4294967296

instance (z : ℤ) : Decidable (I16Range z) := by unfold I16Range; infer_instance
instance (z : ℤ) : Decidable (I32Range z) := by unfold I32Range; infer_instance
instance (n : ℕ) : Decidable (U32Range n) := by unfold U32Range; infer_instance

/-! ## TimeCodec (source lines 133-155)

`NTP_WINDOWS_DELTA = (datetime(1900,1,1) - datetime(1601,1,1)).total_seconds()`.
The proleptic-Gregorian day number of January 1st of year `y` (days since
year 1, January 1st) is `365*(y-1) + leap days`, which is what Python's
`datetime` subtraction computes for two January-1st dates. -/

/-- Days from 1-01-01 to `y`-01-01 in the proleptic Gregorian calendar. -/
def daysToJan1 (y : ℕ) : ℕ := 365 * (y - 1) + (y - 1) / 4 + (y - 1) / 400 - (y - 1) / 100

/-- `(datetime(1900,1,1) - datetime(1601,1,1)).total_seconds()` (source line 135). -/
def NTP_WINDOWS_DELTA : ℚ := ((daysToJan1 1900 - daysToJan1 1601) * 86400 : ℕ)

/-- Source `windows_to_ntp` (lines 138-144): 100 ns ticks since the Windows
epoch to seconds since the NTP epoch. -/
def windows_to_ntp (windows_time : ℚ) : ℚ := windows_time / 10000000 - NTP_WINDOWS_DELTA

/-- Source `build_windows_time` (lines 147-155): `(high_word << 32) + low_word`. -/
def build_windows_time (high_word low_word : ℕ) : ℕ := high_word * 4294967296 + low_word

/-- Modelled from the spec: `time_to_windows_ticks`, the inverse of the
tick-to-continuous-time conversion, is named by the spec's round-trip
property but is not part of the source file; it is the exact inverse of
`windows_to_ntp` (seconds since the NTP epoch back to 100 ns ticks). -/
def time_to_windows_ticks (t : ℚ) : ℚ := (t + NTP_WINDOWS_DELTA) * 10000000

/-! ## SampleDecoder data model (source lines 89-118, 202-242) -/

/-- The fixed-layout sample record of `sample_dtype` (source lines 90-116).
Integer fields (`i2`/`i4`/`u4`) are decoded values; `f4` fields are carried
as their raw little-endian 32-bit words. -/
structure RawSample where
  length1 : ℤ
  dt0 : ℕ
  dt1 : ℕ
  dt2 : ℕ
  dt3 : ℕ
  low_date_time : ℕ
  high_date_time : ℕ
  channel_number : ℤ
  mode : ℤ
  transducer_depth : ℕ
  frequency : ℕ
  transmit_power : ℕ
  pulse_length : ℕ
  bandwidth : ℕ
  sample_interval : ℕ
  sound_velocity : ℕ
  absorption_coefficient : ℕ
  heave : ℕ
  roll : ℕ
  pitch : ℕ
  temperature : ℕ
  trawl_upper_depth_valid : ℤ
  trawl_opening_valid : ℤ
  trawl_upper_depth : ℕ
  trawl_opening : ℕ
  offset : ℤ
  count : ℤ
  deriving DecidableEq, Repr

/-- All integer fields of `d` fit their dtype widths (needed for an exact
encode/decode round trip). -/
def RawSample.InRange (d : RawSample) : Prop :=
  I32Range d.length1 ∧ U32Range d.low_date_time ∧ U32Range d.high_date_time ∧
  I16Range d.channel_number ∧ I16Range d.mode ∧ U32Range d.transducer_depth ∧
  U32Range d.frequency ∧ U32Range d.transmit_power ∧ U32Range d.pulse_length ∧
  U32Range d.bandwidth ∧ U32Range d.sample_interval ∧ U32Range d.sound_velocity ∧
  U32Range d.absorption_coefficient ∧ U32Range d.heave ∧ U32Range d.roll ∧
  U32Range d.pitch ∧ U32Range d.temperature ∧ I16Range d.trawl_upper_depth_valid ∧
  I16Range d.trawl_opening_valid ∧ U32Range d.trawl_upper_depth ∧
  U32Range d.trawl_opening ∧ I32Range d.offset ∧ I32Range d.count

instance (d : RawSample) : Decidable d.InRange := by unfold RawSample.InRange; infer_instance

/-- The byte size of `sample_dtype` (88 bytes: length prefix, datagram
header, and the fixed sample fields). -/
def SAMPLE_STRUCT_SIZE : ℕ := 88

/-- `numpy.fromfile(input_file, dtype=sample_dtype, count=1)` (source line
205): consume 88 bytes and decode the fixed layout; `none` models the empty
array numpy returns near EOF (indexing it raises, aborting the parse). -/
def decodeStruct : List ℕ → Option (RawSample × List ℕ)
  | l0 :: l1 :: l2 :: l3 :: t0 :: t1 :: t2 :: t3 ::
    w0 :: w1 :: w2 :: w3 :: x0 :: x1 :: x2 :: x3 ::
    c0 :: c1 :: m0 :: m1 ::
    td0 :: td1 :: td2 :: td3 :: fq0 :: fq1 :: fq2 :: fq3 ::
    tp0 :: tp1 :: tp2 :: tp3 :: pl0 :: pl1 :: pl2 :: pl3 ::
    bw0 :: bw1 :: bw2 :: bw3 :: si0 :: si1 :: si2 :: si3 ::
    sv0 :: sv1 :: sv2 :: sv3 :: ab0 :: ab1 :: ab2 :: ab3 ::
    hv0 :: hv1 :: hv2 :: hv3 :: rl0 :: rl1 :: rl2 :: rl3 ::
    pt0 :: pt1 :: pt2 :: pt3 :: te0 :: te1 :: te2 :: te3 ::
    v0 :: v1 :: u0 :: u1 ::
    tu0 :: tu1 :: tu2 :: tu3 :: to0 :: to1 :: to2 :: to3 ::
    of0 :: of1 :: of2 :: of3 :: n0 :: n1 :: n2 :: n3 :: rest =>
      some (⟨i32v l0 l1 l2 l3, t0, t1, t2, t3,
             u32v w0 w1 w2 w3, u32v x0 x1 x2 x3,
             i16v c0 c1, i16v m0 m1,
             u32v td0 td1 td2 td3, u32v fq0 fq1 fq2 fq3,
             u32v tp0 tp1 tp2 tp3, u32v pl0 pl1 pl2 pl3,
             u32v bw0 bw1 bw2 bw3, u32v si0 si1 si2 si3,
             u32v sv0 sv1 sv2 sv3, u32v ab0 ab1 ab2 ab3,
             u32v hv0 hv1 hv2 hv3, u32v rl0 rl1 rl2 rl3,
             u32v pt0 pt1 pt2 pt3, u32v te0 te1 te2 te3,
             i16v v0 v1, i16v u0 u1,
             u32v tu0 tu1 tu2 tu3, u32v to0 to1 to2 to3,
             i32v of0 of1 of2 of3, i32v n0 n1 n2 n3⟩, rest)
  | _ => none

/-- The 88-byte little-endian encoding of a `RawSample`, inverse of
`decodeStruct` on in-range fields. -/
def encodeStruct (d : RawSample) : List ℕ :=
  le32i d.length1 ++ [d.dt0, d.dt1, d.dt2, d.dt3] ++
  le32 d.low_date_time ++ le32 d.high_date_time ++
  le16i d.channel_number ++ le16i d.mode ++
  le32 d.transducer_depth ++ le32 d.frequency ++
  le32 d.transmit_power ++ le32 d.pulse_length ++
  le32 d.bandwidth ++ le32 d.sample_interval ++
  le32 d.sound_velocity ++ le32 d.absorption_coefficient ++
  le32 d.heave ++ le32 d.roll ++ le32 d.pitch ++ le32 d.temperature ++
  le16i d.trawl_upper_depth_valid ++ le16i d.trawl_opening_valid ++
  le32 d.trawl_upper_depth ++ le32 d.trawl_opening ++
  le32i d.offset ++ le32i d.count

/-- `numpy.fromfile(input_file, dtype=power_dtype, count=count)` (source
line 225): read up to `count` little-endian `<i2` power samples, stopping
early at end of data exactly as numpy does. -/
def rdI16s : ℕ → List ℕ → List ℤ
  | 0, _ => []
  | n + 1, a :: b :: rest => i16v a b :: rdI16s n rest
  | _ + 1, [] => []
  | _ + 1, [_] => []

/-- The little-endian encoding of a power-sample array. -/
def encodePower (pw : List ℤ) : List ℕ := (pw.map le16i).flatten

/-- The NTP time `process_sample` derives from a decoded record (source
lines 219-220). -/
def ntpOf (d : RawSample) : ℚ :=
  windows_to_ntp (build_windows_time d.high_date_time d.low_date_time)

/-- Outcome of `process_sample` (source lines 202-242): a decoded record,
the non-fatal `InvalidTransducer` skip signal, or a hard read failure (an
uncaught exception aborting the file parse).  `lengthMismatch` records
whether the non-fatal trailing-length warning (lines 237-240) fired;
`nextPos` is the stream position where processing stopped. -/
inductive DecodeResult where
  | ok (channel : ℤ) (time : ℚ) (sample : RawSample) (power : List ℤ)
       (lengthMismatch : Bool) (nextPos : ℕ)
  | invalidTransducer (nextPos : ℕ)
  | fail
  deriving DecidableEq, Repr

/-- Source `process_sample(input_file, transducer_count)` (lines 202-242)
reading the stream `data` at position `pos`: decode the 88-byte struct,
validate `0 <= channel <= transducer_count` (raising the skip signal
otherwise), read `count` power samples, skip `count` angle pairs when
`mode > 1`, then read the trailing length and compare it with `length1`
(warn-only).  Reads are clamped at end of data as numpy's `fromfile` is;
a missing struct or trailing length aborts (`fail`).  A negative `count`
is modelled as 0 (numpy's read-all semantics for negative counts is not
reachable from well-formed data). -/
def process_sample (data : List ℕ) (pos : ℕ) (transducer_count : ℤ) : DecodeResult :=
  match decodeStruct (data.drop pos) with
  | none => .fail
  | some (s, rest) =>
    if s.channel_number < 0 ∨ transducer_count < s.channel_number then
      .invalidTransducer (pos + SAMPLE_STRUCT_SIZE)
    else
      let cnt := s.count.toNat
      let nPow := min cnt (rest.length / 2)
      let power := rdI16s cnt rest
      let rest2 := rest.drop (2 * nPow)
      let nAng := if 1 < s.mode then min cnt (rest2.length / 2) else 0
      let rest3 := rest2.drop (2 * nAng)
      match rest3 with
      | a :: b :: c :: e :: _ =>
        .ok s.channel_number (ntpOf s) s power (decide (s.length1 ≠ i32v a b c e))
           (pos + SAMPLE_STRUCT_SIZE + 2 * nPow + 2 * nAng + 4)
      | _ => .fail

/-- A whole sample datagram as laid out in the file: the 88-byte struct
(which itself begins with the leading length field), the power samples,
the raw angle bytes (present when `mode > 1`), and the trailing 4-byte
length field `trailing` (equal to `length1` in a well-formed datagram). -/
def encodeDatagram (d : RawSample) (pw : List ℤ) (angleBytes : List ℕ) (trailing : ℤ) :
    List ℕ :=
  encodeStruct d ++ encodePower pw ++ angleBytes ++ le32i trailing

/-! ## DatagramScanner (source lines 123, 366-429) -/

/-- `BLOCK_SIZE` (source line 123). -/
def BLOCK_SIZE : ℕ := 4096

/-- `LENGTH_SIZE` of the external echogram module: the 4-byte length prefix
that precedes the datagram-type signature. -/
def LENGTH_SIZE : ℕ := 4

/-- Modelled from the spec: the sample-datagram signature bytes searched
for by `SAMPLE_MATCHER` of the external `zplsc_echogram` module; the spec
describes a fixed 4-byte ASCII type-tag needle (`RAW0`). -/
def SAMPLE_SIGNATURE : List ℕ := [82, 65, 87, 48]

/-- First position at or after `i` (relative numbering: `i` names the head
of `l`) where `SAMPLE_SIGNATURE` occurs in `l`: the `SAMPLE_MATCHER.search`
of source line 371. -/
def findSigFrom : List ℕ → ℕ → Option ℕ
  | [], _ => none
  | b :: rest, i =>
    if List.take 4 (b :: rest) = SAMPLE_SIGNATURE then some i
    else findSigFrom rest (i + 1)

/-- First occurrence of the sample signature in a block. -/
def findSig (l : List ℕ) : Option ℕ := findSigFrom l 0

/-- The signature occurs in `l` at position `q`. -/
def sigAt (l : List ℕ) (q : ℕ) : Prop := (l.drop q).take 4 = SAMPLE_SIGNATURE

instance (l : List ℕ) (q : ℕ) : Decidable (sigAt l q) := by unfold sigAt; infer_instance

/-- The scan loop's exit test: `while len(raw) > 4` (source line 369) with
`raw = input_file.read(BLOCK_SIZE)` at position `pos`; the loop body is
entered exactly when this is `false`. -/
def scanExhausted (data : List ℕ) (pos : ℕ) : Bool :=
  ((data.drop pos).take BLOCK_SIZE).length ≤ 4

/-- One decoded sample handed from the scanner/decoder to the
ping aggregator (`next_channel, next_time, next_sample, next_power` of
source line 381). -/
structure Decoded where
  channel : ℤ
  time : ℚ
  sample : RawSample
  power : List ℤ
  deriving DecidableEq, Repr

/-- The scanning `while` loop of `parse_echogram_file` (source lines
366-429), restricted to its scanner/decoder effects: it yields the list of
successfully decoded samples (in order) that the loop body hands to the
ping-aggregation code.  On a signature match at block position `p` it seeks
to `position + p - LENGTH_SIZE` and decodes there, resuming at the
decoder's final position; the `InvalidTransducer` skip resumes without
yielding; with no match it advances by `BLOCK_SIZE - 4` (the 4-byte
overlap re-read); it exits, returning the accumulated list, when at most
4 bytes remain.  `fuel` bounds the iteration count (`none` = out of fuel
or a hard decode failure). -/
def parse_echogram_scan (data : List ℕ) (transducer_count : ℤ) :
    ℕ → ℕ → List Decoded → Option (List Decoded)
  | 0, _, _ => none
  | fuel + 1, pos, acc =>
    if scanExhausted data pos then some acc
    else
      match findSig ((data.drop pos).take BLOCK_SIZE) with
      | some p =>
        match process_sample data (pos + p - LENGTH_SIZE) transducer_count with
        | .ok ch t s pw _ nxt =>
            parse_echogram_scan data transducer_count fuel nxt (acc ++ [⟨ch, t, s, pw⟩])
        | .invalidTransducer nxt =>
            parse_echogram_scan data transducer_count fuel nxt acc
        | .fail => none
      | none => parse_echogram_scan data transducer_count fuel (pos + (BLOCK_SIZE - 4)) acc

/-! ## PingAggregator (source lines 186-199, 355-421)

The per-timestamp channel maps (`sample_data_temp_dict`,
`power_data_temp_dict`) and the accumulated `power_data_dict` are CPython 2
dicts with small non-negative integer keys (channels bounded by the
transducer count); such dicts iterate in ascending key order, which the
model realises with key-sorted association lists.  The side accumulators
`frequencies` and `bin_size` (source lines 352-353, 404-408) feed only the
plotting stage and are not modelled. -/

/-- Dict assignment `dict[k] = v` on a key-sorted association list. -/
def dict_insert {α : Type} (k : ℤ) (v : α) : List (ℤ × α) → List (ℤ × α)
  | [] => [(k, v)]
  | (k', v') :: rest =>
    if k < k' then (k, v) :: (k', v') :: rest
    else if k = k' then (k, v) :: rest
    else (k', v') :: dict_insert k v rest

/-- The one-per-file metadata particle built by `append_metadata` (source
lines 186-199): the file timestamp, the echogram path, and one entry per
channel (in dict iteration order) of each captured field. -/
structure Metadata where
  fileTime : String
  echogramPath : String
  channels : List ℤ
  transducerDepth : List ℕ
  frequency : List ℕ
  transmitPower : List ℕ
  pulseLength : List ℕ
  bandwidth : List ℕ
  sampleInterval : List ℕ
  soundVelocity : List ℕ
  absorptionCoef : List ℕ
  temperature : List ℕ
  deriving DecidableEq, Repr

/-- The `defaultdict(list)` the first completed ping starts from (source
line 399), before `FILE_TIME`/`ECHOGRAM_PATH` are assigned. -/
def emptyMetadata : Metadata :=
  ⟨"", "", [], [], [], [], [], [], [], [], [], []⟩

/-- Source `append_metadata` (lines 186-199): set the file time and path,
and append this channel's header fields. -/
def append_metadata (md : Metadata) (file_time file_path : String) (channel : ℤ)
    (sample_data : RawSample) : Metadata :=
  { fileTime := file_time
    echogramPath := file_path
    channels := md.channels ++ [channel]
    transducerDepth := md.transducerDepth ++ [sample_data.transducer_depth]
    frequency := md.frequency ++ [sample_data.frequency]
    transmitPower := md.transmitPower ++ [sample_data.transmit_power]
    pulseLength := md.pulseLength ++ [sample_data.pulse_length]
    bandwidth := md.bandwidth ++ [sample_data.bandwidth]
    sampleInterval := md.sampleInterval ++ [sample_data.sample_interval]
    soundVelocity := md.soundVelocity ++ [sample_data.sound_velocity]
    absorptionCoef := md.absorptionCoef ++ [sample_data.absorption_coefficient]
    temperature := md.temperature ++ [sample_data.temperature] }

/-- The `for channel, sample_data in sample_data_temp_dict.iteritems()`
metadata capture of source lines 400-402. -/
def buildMetadata (file_time file_path : String) (l : List (ℤ × RawSample)) : Metadata :=
  l.foldl (fun md kv => append_metadata md file_time file_path kv.1 kv.2) emptyMetadata

/-- `for channel in power_data_temp_dict: power_data_dict[channel].append(...)`
(source lines 415-416); a channel absent from `power_data_dict` raises
`KeyError` (uncaught), modelled as `none`. -/
def appendColumns (pd : List (ℤ × List (List ℤ))) :
    List (ℤ × List ℤ) → Option (List (ℤ × List (List ℤ)))
  | [] => some pd
  | (ch, arr) :: rest =>
    if ch ∈ pd.map Prod.fst then
      appendColumns (pd.map fun kv => if kv.1 = ch then (kv.1, kv.2 ++ [arr]) else kv) rest
    else none

/-- The aggregation state threaded through the scan loop of
`parse_echogram_file` (source lines 355-363). -/
structure AggState where
  lastTime : Option ℚ
  sampleTemp : List (ℤ × RawSample)
  powerTemp : List (ℤ × List ℤ)
  powerData : List (ℤ × List (List ℤ))
  dataTimes : List ℚ
  particleData : Option (Metadata × ℚ)
  deriving DecidableEq, Repr

/-- The initial aggregation state (source lines 356-363). -/
def initAggState : AggState := ⟨none, [], [], [], [], none⟩

/-- Source lines 383-387: a sample at a new timestamp clears both temporary
channel maps and moves `last_time` forward. -/
def discardIfNewTime (st : AggState) (t : ℚ) : AggState :=
  if some t ≠ st.lastTime then
    { st with sampleTemp := [], powerTemp := [], lastTime := some t }
  else st

/-- The ping-aggregation body run for each decoded sample (source lines
383-416): discard stale temp maps, store the sample under its channel,
and when both maps reach `transducer_count` entries, capture the metadata
particle on the first completion (lines 397-411) and append the ping's
time and per-channel power columns (lines 413-416). -/
def stepDecoded (transducer_count : ℤ) (file_time file_path : String)
    (st : AggState) (d : Decoded) : Option AggState :=
  let st1 := discardIfNewTime st d.time
  let sTemp := dict_insert d.channel d.sample st1.sampleTemp
  let pTemp := dict_insert d.channel d.power st1.powerTemp
  if (sTemp.length : ℤ) = transducer_count ∧ (pTemp.length : ℤ) = transducer_count then
    let pd0 := if st1.powerData.isEmpty then
        pTemp.map (fun kv => (kv.1, ([] : List (List ℤ)))) else st1.powerData
    let particle := if st1.powerData.isEmpty then
        some (buildMetadata file_time file_path sTemp, d.time) else st1.particleData
    match appendColumns pd0 pTemp with
    | some pd1 =>
        some { lastTime := st1.lastTime, sampleTemp := sTemp, powerTemp := pTemp,
               powerData := pd1, dataTimes := st1.dataTimes ++ [d.time],
               particleData := particle }
    | none => none
  else some { st1 with sampleTemp := sTemp, powerTemp := pTemp }

/-- The aggregation pass over the scanner/decoder's output sequence. -/
def runAgg (transducer_count : ℤ) (file_time file_path : String)
    (ds : List Decoded) : Option AggState :=
  ds.foldlM (stepDecoded transducer_count file_time file_path) initAggState

/-! ## SvConverter (source lines 474-543)

`power2Sv` works on Python floats; the model uses exact arithmetic: the
calibration parameters and the range/Sa computations (which only use field
operations and comparisons) live in `ℚ`, while the logarithmic gains live
in `ℝ`.  Every formula below is transcribed from the body of `power2Sv`. -/

/-- One channel's entry of the `cal_params` list consumed by `power2Sv`
(built by `get_cal_params`, source lines 444-471). -/
structure CalParams where
  frequency : ℚ
  soundvelocity : ℚ
  sampleinterval : ℚ
  absorptioncoefficient : ℚ
  gain : ℚ
  equivalentbeamangle : ℚ
  transmitpower : ℚ
  pulselength : ℚ
  pulselengthtable : List ℚ
  sacorrectiontable : List ℚ
  deriving DecidableEq, Repr

/-- `dR = c*t/2` (source line 504). -/
def dRof (p : CalParams) : ℚ := p.soundvelocity * p.sampleinterval / 2

/-- `wvlen = c/f` (source line 505). -/
def wvlen (p : CalParams) : ℚ := p.soundvelocity / p.frequency

/-- `CSv` (source line 508). -/
noncomputable def CSvOf (p : CalParams) : ℝ :=
  10 * Real.logb 10
    ((p.transmitpower * (Real.rpow 10 (p.gain / 10)) ^ 2 * (wvlen p : ℝ) ^ 2 *
      p.soundvelocity * p.pulselength * Real.rpow 10 (p.equivalentbeamangle / 10)) /
      (32 * Real.pi ^ 2))

/-- `idx = [i for i,dd in enumerate(pulselengthtable) if dd==tau]`
(source line 512). -/
def sacIndices (p : CalParams) : List ℕ :=
  (List.range p.pulselengthtable.length).filter
    (fun i => p.pulselengthtable.getD i 0 = p.pulselength)

/-- `Sac = 2 * sacorrectiontable[idx]` (source line 513): numpy fancy
indexing builds an array with one entry `2 * sacorrectiontable[i]` per
matching table index `i`; an index beyond the Sa table raises
`IndexError` (`none`). -/
def SacList (p : CalParams) : Option (List ℚ) :=
  if ∀ i ∈ sacIndices p, i < p.sacorrectiontable.length then
    some ((sacIndices p).map (fun i => 2 * p.sacorrectiontable.getD i 0))
  else none

/-- numpy's broadcast of the matched trailing dimensions in
`power.T + ... - Sac` (source lines 532-534): the power matrix contributes
`m` (range samples), `Sac` contributes `L = len(idx)`; the pair is legal
when the two agree or one of them is 1 (a 1 stretches to the other
length, including 0), yielding the result width; otherwise `ValueError`
(fatal for the channel).  In particular an empty `Sac` (no pulse-length
match) broadcasts successfully — to an empty result — exactly when
`m ≤ 1`. -/
def svWidth (m L : ℕ) : Option ℕ :=
  if m = L then some m
  else if m = 1 then some L
  else if L = 1 then some m
  else none

/-- The scalar Sa correction of the ordinary conversion: the single entry
of `Sac` when the pulse-length lookup matches exactly one in-range table
index — the only case in which the broadcast of lines 532-534 subtracts
one common correction from every sample. -/
def SacOf (p : CalParams) : Option ℚ :=
  match SacList p with
  | some [s] => some s
  | _ => none

/-- `rangeCorrected` (source lines 519-525): `range_vec[k] = k*dR` clamped
to 0 after subtracting `tvgCorrectionFactor * dR` with the factor 2.0 of
line 482. -/
def rangeCorrected (p : CalParams) (k : ℕ) : ℚ :=
  max 0 ((k : ℚ) * dRof p - 2 * dRof p)

/-- `TVG` (source lines 528-530): 0 where the corrected range is 0, else
`20*log10(rangeCorrected)`. -/
noncomputable def TVGof (p : CalParams) (k : ℕ) : ℝ :=
  if rangeCorrected p k = 0 then 0 else 20 * Real.logb 10 (rangeCorrected p k)

/-- The range-axis length of `Sv[n+1]` for a channel with `m` range
samples: the broadcast width of the power matrix against `Sac`, `none`
when the Sa lookup (`IndexError`) or the broadcast (`ValueError`) fails.
`power2Sv_rows` and `power2Sv_chan` are the shape and the entries of the
same source expression (lines 532-535). -/
def power2Sv_rows (p : CalParams) (m : ℕ) : Option ℕ :=
  (SacList p).bind fun sacs => svWidth m sacs.length

/-- The entries of `Sv[n+1]` from the per-channel body of `power2Sv`
(source lines 493-535) for a channel with `m` range samples (`pSize[0]`)
and power matrix `powerDb` (indexed `[range sample][ping]`, in dB):
elementwise `Sv = power + TVG + 2*alpha*rangeCorrected - CSv - Sac` under
numpy broadcasting (a size-1 power axis or size-1 `Sac` is stretched to
the result width `w`), followed by the range-axis reversal `Sv[::-1]` of
line 535.  `none` exactly when the Sa lookup or the broadcast fails; the
valid row indices are `k < w` with `w` given by `power2Sv_rows` (an empty
`Sac` against `m ≤ 1` silently yields a zero-row matrix). -/
noncomputable def power2Sv_chan (p : CalParams) (m : ℕ) (powerDb : ℕ → ℕ → ℝ) :
    Option (ℕ → ℕ → ℝ) :=
  match SacList p with
  | none => none
  | some sacs =>
    (svWidth m sacs.length).map fun w => fun k ping =>
      let j := w - 1 - k
      let jm := if m = 1 then 0 else j
      let js := if sacs.length = 1 then 0 else j
      powerDb jm ping + TVGof p jm +
        2 * (p.absorptioncoefficient : ℝ) * (rangeCorrected p jm : ℝ) -
        CSvOf p - (sacs.getD js 0 : ℝ)

/-! ## Concrete test data (used by witnesses and counterexamples) -/

/-- A concrete in-range sample record carrying the sample-datagram type tag
and two power samples, used to instantiate the theorems below. -/
def testSample (ch : ℤ) : RawSample :=
  ⟨100, 82, 65, 87, 48, 12345, 30000000, ch, 1,
   1, 2, 3, 4, 5, 6, 7, 8, 9, 10, 11, 12,
   5, 6, 13, 14, 0, 2⟩

/-- A concrete decoded sample for aggregator instantiations. -/
def testDecoded (ch : ℤ) (t : ℚ) : Decoded := ⟨ch, t, testSample ch, [100, -5]⟩

/-- A concrete calibration-parameter set whose pulse length matches exactly
one pulse-length-table entry (index 1). -/
def testCal : CalParams :=
  ⟨38000, 1500, 1, 1, 22, 10, 2000, 1024, [512, 1024, 2048], [1, 2, 3]⟩

/-- A concrete calibration-parameter set whose pulse length matches no
pulse-length-table entry. -/
def testCalNoMatch : CalParams :=
  ⟨38000, 1500, 1, 1, 22, 10, 2000, 3, [512, 1024, 2048], [1, 2, 3]⟩

/-- A concrete aggregation state right after a completed three-channel
ping at time 0. -/
def testAggState : AggState :=
  ⟨some 0, [(1, testSample 1), (2, testSample 2), (3, testSample 3)],
   [(1, [100, -5]), (2, [100, -5]), (3, [100, -5])],
   [(1, [[7]]), (2, [[8]]), (3, [[9]])], [0], none⟩

/-! ## Byte codec round trips -/

/-- Reading back four little-endian bytes of an in-range unsigned word. -/
theorem u32v_le32 (n : ℕ) (h : U32Range n) :
    u32v (n % 256) (n / 256 % 256) (n / 65536 % 256) (n / 16777216 % 256) = n := by
  unfold U32Range at h
  unfold u32v
  omega

/-- Reading back the two little-endian bytes of an in-range signed 16-bit value. -/
theorem i16v_le16i (z : ℤ) (h : I16Range z) :
    i16v ((z % 65536).toNat % 256) ((z % 65536).toNat / 256 % 256) = z := by
  unfold I16Range at h
  unfold i16v u16v toI16
  split <;> omega

/-- Reading back the four little-endian bytes of an in-range signed 32-bit value. -/
theorem i32v_le32i (z : ℤ) (h : I32Range z) :
    i32v ((z % 4294967296).toNat % 256) ((z % 4294967296).toNat / 256 % 256)
      ((z % 4294967296).toNat / 65536 % 256) ((z % 4294967296).toNat / 16777216 % 256) = z := by
  unfold I32Range at h
  unfold i32v u32v toI32
  split <;> omega

/-- `decodeStruct` on an explicitly laid-out 88-byte block. -/
theorem decodeStruct_cons
    (l0 l1 l2 l3 t0 t1 t2 t3 w0 w1 w2 w3 x0 x1 x2 x3 c0 c1 m0 m1
     td0 td1 td2 td3 fq0 fq1 fq2 fq3 tp0 tp1 tp2 tp3 pl0 pl1 pl2 pl3
     bw0 bw1 bw2 bw3 si0 si1 si2 si3 sv0 sv1 sv2 sv3 ab0 ab1 ab2 ab3
     hv0 hv1 hv2 hv3 rl0 rl1 rl2 rl3 pt0 pt1 pt2 pt3 te0 te1 te2 te3
     v0 v1 u0 u1 tu0 tu1 tu2 tu3 to0 to1 to2 to3 of0 of1 of2 of3
     n0 n1 n2 n3 : ℕ) (rest : List ℕ) :
    decodeStruct (l0 :: l1 :: l2 :: l3 :: t0 :: t1 :: t2 :: t3 ::
      w0 :: w1 :: w2 :: w3 :: x0 :: x1 :: x2 :: x3 ::
      c0 :: c1 :: m0 :: m1 ::
      td0 :: td1 :: td2 :: td3 :: fq0 :: fq1 :: fq2 :: fq3 ::
      tp0 :: tp1 :: tp2 :: tp3 :: pl0 :: pl1 :: pl2 :: pl3 ::
      bw0 :: bw1 :: bw2 :: bw3 :: si0 :: si1 :: si2 :: si3 ::
      sv0 :: sv1 :: sv2 :: sv3 :: ab0 :: ab1 :: ab2 :: ab3 ::
      hv0 :: hv1 :: hv2 :: hv3 :: rl0 :: rl1 :: rl2 :: rl3 ::
      pt0 :: pt1 :: pt2 :: pt3 :: te0 :: te1 :: te2 :: te3 ::
      v0 :: v1 :: u0 :: u1 ::
      tu0 :: tu1 :: tu2 :: tu3 :: to0 :: to1 :: to2 :: to3 ::
      of0 :: of1 :: of2 :: of3 :: n0 :: n1 :: n2 :: n3 :: rest) =
      some (⟨i32v l0 l1 l2 l3, t0, t1, t2, t3,
             u32v w0 w1 w2 w3, u32v x0 x1 x2 x3,
             i16v c0 c1, i16v m0 m1,
             u32v td0 td1 td2 td3, u32v fq0 fq1 fq2 fq3,
             u32v tp0 tp1 tp2 tp3, u32v pl0 pl1 pl2 pl3,
             u32v bw0 bw1 bw2 bw3, u32v si0 si1 si2 si3,
             u32v sv0 sv1 sv2 sv3, u32v ab0 ab1 ab2 ab3,
             u32v hv0 hv1 hv2 hv3, u32v rl0 rl1 rl2 rl3,
             u32v pt0 pt1 pt2 pt3, u32v te0 te1 te2 te3,
             i16v v0 v1, i16v u0 u1,
             u32v tu0 tu1 tu2 tu3, u32v to0 to1 to2 to3,
             i32v of0 of1 of2 of3, i32v n0 n1 n2 n3⟩, rest) := rfl

/-- Decoding inverts encoding on the 88-byte fixed struct. -/
theorem decodeStruct_encodeStruct (d : RawSample) (h : d.InRange) (rest : List ℕ) :
    decodeStruct (encodeStruct d ++ rest) = some (d, rest) := by
  obtain ⟨h1, h2, h3, h4, h5, h6, h7, h8, h9, h10, h11, h12, h13, h14, h15, h16, h17,
    h18, h19, h20, h21, h22, h23⟩ := h
  obtain ⟨f1, g0, g1, g2, g3, f2, f3, f4, f5, f6, f7, f8, f9, f10, f11, f12, f13,
    f14, f15, f16, f17, f18, f19, f20, f21, f22, f23⟩ := d
  simp only [encodeStruct, le32i, le32, le16i, le16, List.cons_append, List.nil_append]
  rw [decodeStruct_cons]
  simp only [Option.some.injEq, Prod.mk.injEq, RawSample.mk.injEq, and_true, true_and]
  exact ⟨i32v_le32i _ h1, u32v_le32 _ h2, u32v_le32 _ h3,
    i16v_le16i _ h4, i16v_le16i _ h5, u32v_le32 _ h6, u32v_le32 _ h7,
    u32v_le32 _ h8, u32v_le32 _ h9, u32v_le32 _ h10, u32v_le32 _ h11,
    u32v_le32 _ h12, u32v_le32 _ h13, u32v_le32 _ h14, u32v_le32 _ h15,
    u32v_le32 _ h16, u32v_le32 _ h17, i16v_le16i _ h18, i16v_le16i _ h19,
    u32v_le32 _ h20, u32v_le32 _ h21, i32v_le32i _ h22, i32v_le32i _ h23⟩

/-- The encoded power array occupies two bytes per sample. -/
theorem encodePower_length (pw : List ℤ) : (encodePower pw).length = 2 * pw.length := by
  induction pw with
  | nil => rfl
  | cons z tl ih =>
    simp only [encodePower, List.map_cons, List.flatten_cons, List.length_append,
      List.length_cons] at *
    simp only [le16i, le16, List.length_cons, List.length_nil]
    omega

/-- Reading back an encoded power array of in-range samples. -/
theorem rdI16s_encodePower (pw : List ℤ) (h : ∀ z ∈ pw, I16Range z) (rest : List ℕ) :
    rdI16s pw.length (encodePower pw ++ rest) = pw := by
  induction pw with
  | nil => rfl
  | cons z tl ih =>
    simp only [encodePower, List.map_cons, List.flatten_cons, List.length_cons,
      List.append_assoc, le16i, le16, List.cons_append, List.nil_append]
    rw [rdI16s]
    have hz := h z (List.mem_cons_self z tl)
    have htl : ∀ w ∈ tl, I16Range w := fun w hw => h w (List.mem_cons_of_mem z hw)
    have := ih htl
    simp only [encodePower] at this
    rw [i16v_le16i z hz, this]

/-- `process_sample` on a stream whose position `pos` holds a full encoded
sample datagram (with arbitrary trailing length field `tr`) followed by
anything: the decode succeeds when the channel is in range, returns exactly
the encoded record and power samples, flags a warning exactly when the
trailing length disagrees with `length1`, and stops right after the
datagram. -/
theorem process_sample_encodeDatagram
    (data : List ℕ) (pos : ℕ) (d : RawSample) (pw : List ℤ) (ab : List ℕ) (tr : ℤ)
    (tc : ℤ) (suffix : List ℕ)
    (hdata : data.drop pos = encodeDatagram d pw ab tr ++ suffix)
    (hr : d.InRange) (htr : I32Range tr)
    (hpw : ∀ z ∈ pw, I16Range z) (hcnt : d.count = pw.length)
    (hab1 : 1 < d.mode → ab.length = 2 * pw.length)
    (hab2 : ¬ 1 < d.mode → ab = [])
    (hch1 : 0 ≤ d.channel_number) (hch2 : d.channel_number ≤ tc) :
    process_sample data pos tc =
      .ok d.channel_number (ntpOf d) d pw (decide (d.length1 ≠ tr))
        (pos + SAMPLE_STRUCT_SIZE + 2 * pw.length + ab.length + 4) := by
  have hd : decodeStruct (data.drop pos) =
      some (d, encodePower pw ++ (ab ++ (le32i tr ++ suffix))) := by
    have h2 : data.drop pos =
        encodeStruct d ++ (encodePower pw ++ (ab ++ (le32i tr ++ suffix))) := by
      rw [hdata]; simp only [encodeDatagram, List.append_assoc]
    rw [h2, decodeStruct_encodeStruct d hr]
  have hcnt' : d.count.toNat = pw.length := by omega
  have hlen : (encodePower pw ++ (ab ++ (le32i tr ++ suffix))).length =
      2 * pw.length + ab.length + (4 + suffix.length) := by
    simp only [List.length_append, encodePower_length, le32i, le32, List.length_cons,
      List.length_nil]
    omega
  have hmin : min pw.length ((encodePower pw ++ (ab ++ (le32i tr ++ suffix))).length / 2) =
      pw.length := by rw [hlen]; omega
  have hdrop1 : (encodePower pw ++ (ab ++ (le32i tr ++ suffix))).drop (2 * pw.length) =
      ab ++ (le32i tr ++ suffix) := by
    rw [← encodePower_length pw]; exact List.drop_left _ _
  unfold process_sample
  rw [hd]
  dsimp only
  rw [if_neg (by omega : ¬(d.channel_number < 0 ∨ tc < d.channel_number))]
  rw [hcnt', hmin, rdI16s_encodePower pw hpw, hdrop1]
  by_cases hm : 1 < d.mode
  · rw [if_pos hm]
    have hab := hab1 hm
    have hmin2 : min pw.length ((ab ++ (le32i tr ++ suffix)).length / 2) = pw.length := by
      simp only [List.length_append, le32i, le32, List.length_cons, List.length_nil]
      omega
    rw [hmin2]
    have hdrop2 : (ab ++ (le32i tr ++ suffix)).drop (2 * pw.length) =
        le32i tr ++ suffix := by
      rw [← hab]; exact List.drop_left _ _
    rw [hdrop2]
    simp only [le32i, le32, List.cons_append, List.nil_append]
    rw [i32v_le32i tr htr]
    congr 1
    omega
  · rw [if_neg hm]
    rw [hab2 hm]
    simp only [Nat.mul_zero, List.drop_zero, List.nil_append, le32i, le32,
      List.cons_append]
    rw [i32v_le32i tr htr]
    congr 1

/-! ## Scanner lemmas -/

/-- An occurrence of the 4-byte signature needs 4 bytes of room. -/
theorem sigAt_le_length (l : List ℕ) (q : ℕ) (h : sigAt l q) : q + 4 ≤ l.length := by
  have := congrArg List.length h
  simp only [sigAt, SAMPLE_SIGNATURE, List.length_take, List.length_drop,
    List.length_cons, List.length_nil] at this ⊢
  omega

/-- Signature occurrences transfer between a list and its `take` prefix
when fully inside the prefix. -/
theorem sigAt_take_iff (l : List ℕ) (q n : ℕ) (h4 : q + 4 ≤ n) :
    sigAt (l.take n) q ↔ sigAt l q := by
  unfold sigAt
  rw [List.drop_take, List.take_take]
  have : min 4 (n - q) = 4 := by omega
  rw [this]

/-- A signature occurrence in a prefix is an occurrence in the list. -/
theorem sigAt_of_take (l : List ℕ) (q n : ℕ) (h : sigAt (l.take n) q) : sigAt l q := by
  by_cases h4 : q + 4 ≤ n
  · exact (sigAt_take_iff l q n h4).1 h
  · exfalso
    have := sigAt_le_length _ _ h
    simp only [List.length_take] at this
    omega

/-- Signature occurrences in a `drop` are shifted occurrences. -/
theorem sigAt_drop_iff (l : List ℕ) (pos q : ℕ) :
    sigAt (l.drop pos) q ↔ sigAt l (pos + q) := by
  unfold sigAt
  rw [List.drop_drop]

/-- `findSigFrom` returns the first occurrence. -/
theorem findSigFrom_first (l : List ℕ) (p : ℕ) (hp : sigAt l p)
    (hmin : ∀ q < p, ¬ sigAt l q) : ∀ i, findSigFrom l i = some (i + p) := by
  induction l generalizing p with
  | nil =>
    exfalso
    have := sigAt_le_length _ _ hp
    simp at this
  | cons b rest ih =>
    intro i
    match p with
    | 0 =>
      rw [findSigFrom, if_pos (show List.take 4 (b :: rest) = SAMPLE_SIGNATURE from hp)]
      simp
    | p + 1 =>
      have h0 : ¬ (List.take 4 (b :: rest) = SAMPLE_SIGNATURE) := fun hc =>
        hmin 0 (Nat.succ_pos p) hc
      rw [findSigFrom, if_neg h0]
      have hp' : sigAt rest p := hp
      have hmin' : ∀ q < p, ¬ sigAt rest q := fun q hq hs =>
        hmin (q + 1) (by omega) hs
      rw [ih p hp' hmin' (i + 1)]
      congr 1
      omega

/-- `findSigFrom` finds nothing in a signature-free list. -/
theorem findSigFrom_nothing (l : List ℕ) (h : ∀ q, ¬ sigAt l q) :
    ∀ i, findSigFrom l i = none := by
  induction l with
  | nil => intro i; rfl
  | cons b rest ih =>
    intro i
    have h0 : ¬ (List.take 4 (b :: rest) = SAMPLE_SIGNATURE) := fun hc => h 0 hc
    rw [findSigFrom, if_neg h0]
    exact ih (fun q hs => h (q + 1) hs) (i + 1)

/-- Dropping exactly the length of the left part of an append. -/
theorem drop_length_append {α : Type} (l₁ l₂ : List α) (n : ℕ) (h : l₁.length = n) :
    (l₁ ++ l₂).drop n = l₂ := by
  subst h
  exact List.drop_left _ _

/-- The encoded struct is 88 bytes. -/
theorem encodeStruct_length (d : RawSample) : (encodeStruct d).length = SAMPLE_STRUCT_SIZE := by
  simp [encodeStruct, le32i, le32, le16i, le16, SAMPLE_STRUCT_SIZE]

/-- Total size of an encoded datagram. -/
theorem encodeDatagram_length (d : RawSample) (pw : List ℤ) (ab : List ℕ) (tr : ℤ) :
    (encodeDatagram d pw ab tr).length = 88 + 2 * pw.length + ab.length + 4 := by
  simp [encodeDatagram, List.length_append, encodeStruct_length, encodePower_length,
    le32i, le32, SAMPLE_STRUCT_SIZE]
  omega

/-- A stream holding an encoded sample datagram after `pre` has the sample
signature right after the length prefix, at `pre.length + 4`. -/
theorem sigAt_encoded (pre : List ℕ) (d : RawSample) (pw : List ℤ) (ab : List ℕ)
    (tr : ℤ) (hsig : [d.dt0, d.dt1, d.dt2, d.dt3] = SAMPLE_SIGNATURE) :
    sigAt (pre ++ encodeDatagram d pw ab tr) (pre.length + 4) := by
  unfold sigAt
  rw [List.drop_append]
  have h2 : encodeDatagram d pw ab tr =
      le32i d.length1 ++ ([d.dt0, d.dt1, d.dt2, d.dt3] ++
        (le32 d.low_date_time ++ le32 d.high_date_time ++
         le16i d.channel_number ++ le16i d.mode ++
         le32 d.transducer_depth ++ le32 d.frequency ++
         le32 d.transmit_power ++ le32 d.pulse_length ++
         le32 d.bandwidth ++ le32 d.sample_interval ++
         le32 d.sound_velocity ++ le32 d.absorption_coefficient ++
         le32 d.heave ++ le32 d.roll ++ le32 d.pitch ++ le32 d.temperature ++
         le16i d.trawl_upper_depth_valid ++ le16i d.trawl_opening_valid ++
         le32 d.trawl_upper_depth ++ le32 d.trawl_opening ++
         le32i d.offset ++ le32i d.count ++
         (encodePower pw ++ ab ++ le32i tr))) := by
    simp only [encodeDatagram, encodeStruct, List.append_assoc]
  rw [h2, drop_length_append _ _ 4 (by simp [le32i, le32]), hsig]
  rw [SAMPLE_SIGNATURE]
  rfl

/-- One unfolding of the scan loop at positive fuel. -/
theorem parse_scan_succ (data : List ℕ) (tc : ℤ) (fuel pos : ℕ) (acc : List Decoded) :
    parse_echogram_scan data tc (fuel + 1) pos acc =
      if scanExhausted data pos then some acc
      else
        match findSig ((data.drop pos).take BLOCK_SIZE) with
        | some p =>
          match process_sample data (pos + p - LENGTH_SIZE) tc with
          | .ok ch t s pw _ nxt =>
              parse_echogram_scan data tc fuel nxt (acc ++ [⟨ch, t, s, pw⟩])
          | .invalidTransducer nxt => parse_echogram_scan data tc fuel nxt acc
          | .fail => none
        | none => parse_echogram_scan data tc fuel (pos + (BLOCK_SIZE - 4)) acc := rfl

/-- Scanning a stream that holds exactly one encoded sample datagram after
`pre` signature-free bytes: from any loop position at most `pre.length + 3`
(with enough fuel for the remaining distance), the scanner locates the
signature (also across block boundaries), seeks back by the length prefix,
decodes the record, and the following iteration exits on exhaustion, so the
loop returns exactly this one decoded sample appended to `acc`. -/
theorem scan_finds_datagram
    (pre : List ℕ) (d : RawSample) (pw : List ℤ) (ab : List ℕ) (tr : ℤ) (tc : ℤ)
    (hr : d.InRange) (htr : I32Range tr)
    (hsig : [d.dt0, d.dt1, d.dt2, d.dt3] = SAMPLE_SIGNATURE)
    (hpw : ∀ z ∈ pw, I16Range z) (hcnt : d.count = (pw.length : ℤ))
    (hab1 : 1 < d.mode → ab.length = 2 * pw.length)
    (hab2 : ¬ 1 < d.mode → ab = [])
    (hch1 : 0 ≤ d.channel_number) (hch2 : d.channel_number ≤ tc)
    (hnosig : ∀ q < pre.length + 4, ¬ sigAt (pre ++ encodeDatagram d pw ab tr) q) :
    ∀ fuel pos acc, pos ≤ pre.length + 3 →
      pre.length + 4 ≤ pos + 4092 * fuel →
      parse_echogram_scan (pre ++ encodeDatagram d pw ab tr) tc (fuel + 1) pos acc =
        some (acc ++ [⟨d.channel_number, ntpOf d, d, pw⟩]) := by
  intro fuel
  induction fuel with
  | zero =>
    intro pos acc hpos hfuel
    exact absurd hfuel (by omega)
  | succ f ih =>
    intro pos acc hpos hfuel
    set S := pre ++ encodeDatagram d pw ab tr with hS
    have hSlen : S.length = pre.length + (88 + 2 * pw.length + ab.length + 4) := by
      rw [hS, List.length_append, encodeDatagram_length]
    have hsigS : sigAt S (pre.length + 4) := sigAt_encoded pre d pw ab tr hsig
    have hnex : ¬ (((S.drop pos).take BLOCK_SIZE).length ≤ 4) := by
      simp only [List.length_take, List.length_drop, BLOCK_SIZE]
      omega
    rw [parse_scan_succ]
    rw [show scanExhausted S pos = false from decide_eq_false hnex]
    rw [if_neg Bool.false_ne_true]
    by_cases hin : pre.length + 8 ≤ pos + BLOCK_SIZE
    · have hblock : sigAt ((S.drop pos).take BLOCK_SIZE) (pre.length + 4 - pos) := by
        rw [sigAt_take_iff _ _ _ (by unfold BLOCK_SIZE at *; omega)]
        rw [sigAt_drop_iff]
        have h4 : pos + (pre.length + 4 - pos) = pre.length + 4 := by omega
        rw [h4]
        exact hsigS
      have hfirst : ∀ q < pre.length + 4 - pos,
          ¬ sigAt ((S.drop pos).take BLOCK_SIZE) q := by
        intro q hq hcon
        have h1 : sigAt (S.drop pos) q := sigAt_of_take _ _ _ hcon
        rw [sigAt_drop_iff] at h1
        exact hnosig (pos + q) (by omega) h1
      have hfind : findSig ((S.drop pos).take BLOCK_SIZE) =
          some (pre.length + 4 - pos) := by
        have := findSigFrom_first _ _ hblock hfirst 0
        simpa [findSig] using this
      rw [hfind]
      have hidx : pos + (pre.length + 4 - pos) - LENGTH_SIZE = pre.length := by
        unfold LENGTH_SIZE
        omega
      have hdrop : S.drop pre.length = encodeDatagram d pw ab tr ++ [] := by
        rw [hS, List.drop_left, List.append_nil]
      have hdec := process_sample_encodeDatagram S pre.length d pw ab tr tc []
        hdrop hr htr hpw hcnt hab1 hab2 hch1 hch2
      dsimp only
      rw [hidx, hdec]
      dsimp only
      rw [parse_scan_succ]
      have hex2 : scanExhausted S
          (pre.length + SAMPLE_STRUCT_SIZE + 2 * pw.length + ab.length + 4) = true := by
        apply decide_eq_true
        simp only [List.length_take, List.length_drop, SAMPLE_STRUCT_SIZE]
        omega
      rw [hex2, if_pos rfl]
    · have hnone : findSig ((S.drop pos).take BLOCK_SIZE) = none := by
        unfold findSig
        apply findSigFrom_nothing
        intro q hcon
        have hlen4 := sigAt_le_length _ _ hcon
        simp only [List.length_take, List.length_drop] at hlen4
        have h1 : sigAt (S.drop pos) q := sigAt_of_take _ _ _ hcon
        rw [sigAt_drop_iff] at h1
        exact hnosig (pos + q) (by unfold BLOCK_SIZE at *; omega) h1
      rw [hnone]
      dsimp only
      exact ih (pos + (BLOCK_SIZE - 4)) acc (by unfold BLOCK_SIZE at *; omega)
        (by unfold BLOCK_SIZE at *; omega)

/-! ## Aggregator lemmas -/

/-- The timestamp-change discard touches only `last_time` and the two
temporary channel maps. -/
theorem discardIfNewTime_fields (st : AggState) (t : ℚ) :
    (discardIfNewTime st t).powerData = st.powerData ∧
    (discardIfNewTime st t).dataTimes = st.dataTimes ∧
    (discardIfNewTime st t).particleData = st.particleData := by
  unfold discardIfNewTime
  split <;> exact ⟨rfl, rfl, rfl⟩

/-- Assigning an existing key of a key-sorted dict leaves the key list
unchanged. -/
theorem dict_insert_keys_of_mem {α : Type} (k : ℤ) (v : α) :
    ∀ (l : List (ℤ × α)), (l.map Prod.fst).Sorted (· < ·) → k ∈ l.map Prod.fst →
      (dict_insert k v l).map Prod.fst = l.map Prod.fst := by
  intro l
  induction l with
  | nil => intro _ h; simp at h
  | cons hd tl ih =>
    intro hs h
    obtain ⟨k', v'⟩ := hd
    simp only [List.map_cons, List.sorted_cons] at hs h
    rcases List.mem_cons.1 h with h | h
    · subst h
      unfold dict_insert
      rw [if_neg (lt_irrefl k), if_pos rfl]
      simp
    · have hk : k' < k := hs.1 k h
      unfold dict_insert
      rw [if_neg (by omega), if_neg (by omega)]
      simp only [List.map_cons]
      rw [ih hs.2 h]

/-- Assigning an existing key of a key-sorted dict preserves its size. -/
theorem dict_insert_length_of_mem {α : Type} (k : ℤ) (v : α) (l : List (ℤ × α))
    (hs : (l.map Prod.fst).Sorted (· < ·)) (h : k ∈ l.map Prod.fst) :
    (dict_insert k v l).length = l.length := by
  have := congrArg List.length (dict_insert_keys_of_mem k v l hs h)
  simpa using this

/-- `appendColumns` never changes the set of channels. -/
theorem appendColumns_length (pt : List (ℤ × List ℤ)) :
    ∀ (pd pd' : List (ℤ × List (List ℤ))), appendColumns pd pt = some pd' →
      pd'.length = pd.length := by
  induction pt with
  | nil =>
    intro pd pd' h
    unfold appendColumns at h
    cases h
    rfl
  | cons hd tl ih =>
    obtain ⟨ch, arr⟩ := hd
    intro pd pd' h
    unfold appendColumns at h
    by_cases hm : ch ∈ pd.map Prod.fst
    · rw [if_pos hm] at h
      have := ih _ _ h
      simpa using this
    · rw [if_neg hm] at h
      cases h

/-- When every appended channel exists, `appendColumns` appends to each
channel's column list exactly the power arrays carrying its key. -/
theorem appendColumns_eq (pt : List (ℤ × List ℤ)) :
    ∀ (pd : List (ℤ × List (List ℤ))), (∀ q ∈ pt, q.1 ∈ pd.map Prod.fst) →
      appendColumns pd pt = some (pd.map fun kv =>
        (kv.1, kv.2 ++ (pt.filter (fun q => q.1 = kv.1)).map Prod.snd)) := by
  induction pt with
  | nil =>
    intro pd _
    unfold appendColumns
    simp
  | cons hd tl ih =>
    obtain ⟨ch, arr⟩ := hd
    intro pd h
    unfold appendColumns
    rw [if_pos (h (ch, arr) (List.mem_cons_self _ _))]
    have hkeys : (pd.map fun kv => if kv.1 = ch then (kv.1, kv.2 ++ [arr]) else kv).map
        Prod.fst = pd.map Prod.fst := by
      rw [List.map_map]
      apply List.map_congr_left
      intro kv _
      by_cases hkv : kv.1 = ch <;> simp [hkv]
    rw [ih _ (by rw [hkeys]; exact fun q hq => h q (List.mem_cons_of_mem _ hq))]
    congr 1
    rw [List.map_map]
    apply List.map_congr_left
    intro kv _
    simp only [Function.comp_apply]
    by_cases hkv : kv.1 = ch
    · rw [if_pos hkv]
      simp only [List.filter_cons]
      rw [if_pos (by simp [hkv])]
      simp [List.append_assoc]
    · rw [if_neg hkv]
      simp only [List.filter_cons]
      rw [if_neg (by simp; exact fun hc => hkv hc.symm)]

/-- In a dict with distinct keys, filtering one present key yields one
entry. -/
theorem filter_key_length_one {α : Type} (k : ℤ) :
    ∀ (pt : List (ℤ × α)), (pt.map Prod.fst).Nodup → k ∈ pt.map Prod.fst →
      (pt.filter (fun q => q.1 = k)).length = 1 := by
  intro pt
  induction pt with
  | nil => intro _ hm; simp at hm
  | cons hd tl ih =>
    intro hnd hm
    obtain ⟨k', v'⟩ := hd
    simp only [List.map_cons, List.nodup_cons] at hnd hm
    rcases List.mem_cons.1 hm with hm | hm
    · subst hm
      simp only [List.filter_cons]
      rw [if_pos (by simp)]
      have : tl.filter (fun q => q.1 = k) = [] := by
        rw [List.filter_eq_nil_iff]
        intro q hq
        simp only [decide_eq_true_eq]
        intro hc
        exact hnd.1 (hc ▸ List.mem_map_of_mem Prod.fst hq)
      rw [List.length_cons, this]
      rfl
    · have hne : k' ≠ k := fun hc => hnd.1 (hc ▸ hm)
      simp only [List.filter_cons]
      rw [if_neg (by simpa using hne)]
      exact ih hnd.2 hm

/-- The metadata fold appends, per channel in dict order, the channel and
each captured header field. -/
theorem buildMetadata_fold (ft rp : String) :
    ∀ (l : List (ℤ × RawSample)) (md : Metadata),
      (List.foldl (fun md kv => append_metadata md ft rp kv.1 kv.2) md l).channels
          = md.channels ++ l.map Prod.fst ∧
      (List.foldl (fun md kv => append_metadata md ft rp kv.1 kv.2) md l).transducerDepth
          = md.transducerDepth ++ l.map (fun kv => kv.2.transducer_depth) ∧
      (List.foldl (fun md kv => append_metadata md ft rp kv.1 kv.2) md l).frequency
          = md.frequency ++ l.map (fun kv => kv.2.frequency) ∧
      (List.foldl (fun md kv => append_metadata md ft rp kv.1 kv.2) md l).transmitPower
          = md.transmitPower ++ l.map (fun kv => kv.2.transmit_power) ∧
      (List.foldl (fun md kv => append_metadata md ft rp kv.1 kv.2) md l).pulseLength
          = md.pulseLength ++ l.map (fun kv => kv.2.pulse_length) ∧
      (List.foldl (fun md kv => append_metadata md ft rp kv.1 kv.2) md l).bandwidth
          = md.bandwidth ++ l.map (fun kv => kv.2.bandwidth) ∧
      (List.foldl (fun md kv => append_metadata md ft rp kv.1 kv.2) md l).sampleInterval
          = md.sampleInterval ++ l.map (fun kv => kv.2.sample_interval) ∧
      (List.foldl (fun md kv => append_metadata md ft rp kv.1 kv.2) md l).soundVelocity
          = md.soundVelocity ++ l.map (fun kv => kv.2.sound_velocity) ∧
      (List.foldl (fun md kv => append_metadata md ft rp kv.1 kv.2) md l).absorptionCoef
          = md.absorptionCoef ++ l.map (fun kv => kv.2.absorption_coefficient) ∧
      (List.foldl (fun md kv => append_metadata md ft rp kv.1 kv.2) md l).temperature
          = md.temperature ++ l.map (fun kv => kv.2.temperature) := by
  intro l
  induction l with
  | nil => intro md; simp
  | cons kv tl ih =>
    intro md
    simp only [List.foldl_cons, List.map_cons]
    obtain ⟨e1, e2, e3, e4, e5, e6, e7, e8, e9, e10⟩ := ih (append_metadata md ft rp kv.1 kv.2)
    rw [e1, e2, e3, e4, e5, e6, e7, e8, e9, e10]
    simp [append_metadata, List.append_assoc]

/-- `buildMetadata` lists the channels in dict order, one field entry per
channel. -/
theorem buildMetadata_channels (ft rp : String) (l : List (ℤ × RawSample)) :
    (buildMetadata ft rp l).channels = l.map Prod.fst := by
  have := (buildMetadata_fold ft rp l emptyMetadata).1
  simpa [buildMetadata, emptyMetadata] using this

/-! ## Claim theorems -/

/-- C10: converting any 64-bit Windows tick count (100 ns since 1601, given
as its high/low words) to the continuous NTP-epoch time and back is exact:
`time_to_windows_ticks (windows_to_ntp x) = x`, where the tick value is
built by `build_windows_time`. -/
theorem C10_windows_time_roundtrip (high_word low_word : ℕ)
    (_h1 : high_word < 4294967296) (_h2 : low_word < 4294967296) :
    time_to_windows_ticks (windows_to_ntp (build_windows_time high_word low_word)) =
      (build_windows_time high_word low_word : ℚ) := by
  unfold time_to_windows_ticks windows_to_ntp
  ring

/-- C10 witness: the round trip at a concrete 2016-era tick count. -/
theorem C10_windows_time_roundtrip_witness :
    time_to_windows_ticks (windows_to_ntp (build_windows_time 30500000 1505001012)) =
      (build_windows_time 30500000 1505001012 : ℚ) :=
  C10_windows_time_roundtrip 30500000 1505001012 (by decide) (by decide)

/-- C8 counterexample: a 4-byte stream has 4 (hence "4 or more") unread
bytes, yet the scan guard `len(raw) > 4` already fails, so the loop stops
without scanning — the claim predicts it would continue. -/
theorem C8_counterexample :
    4 ≤ ([0, 0, 0, 0] : List ℕ).length - 0 ∧
    scanExhausted [0, 0, 0, 0] 0 = true ∧
    parse_echogram_scan [0, 0, 0, 0] 3 5 0 [] = some [] := by
  exact ⟨by decide, by decide, rfl⟩

/-- C8 (amended): the scan loop's exit test fires exactly when at most 4
bytes (not: fewer than 4) remain unread, and when it fires the loop
returns its accumulated output immediately. -/
theorem C8_scan_termination :
    (∀ (data : List ℕ) (pos : ℕ),
       scanExhausted data pos = true ↔ data.length - pos ≤ 4) ∧
    (∀ (data : List ℕ) (transducer_count : ℤ) (fuel pos : ℕ) (acc : List Decoded),
       data.length - pos ≤ 4 →
       parse_echogram_scan data transducer_count (fuel + 1) pos acc = some acc) := by
  constructor
  · intro data pos
    unfold scanExhausted
    rw [decide_eq_true_eq]
    simp only [List.length_take, List.length_drop, BLOCK_SIZE]
    omega
  · intro data tc fuel pos acc h
    rw [parse_scan_succ, if_pos]
    apply decide_eq_true
    simp only [List.length_take, List.length_drop, BLOCK_SIZE]
    omega

/-- C8 witness: a 3-byte stream (fewer than 4 bytes unread) is exhausted
and the loop returns its accumulator at once. -/
theorem C8_scan_termination_witness :
    scanExhausted [1, 2, 3] 0 = true ∧
    parse_echogram_scan [1, 2, 3] 7 4 0 [] = some [] :=
  ⟨(C8_scan_termination.1 [1, 2, 3] 0).2 (by decide),
   C8_scan_termination.2 [1, 2, 3] 7 3 0 [] (by decide)⟩

/-- A scalar Sa correction means the fancy-index result is the singleton
array holding it. -/
theorem SacList_eq_of_SacOf (p : CalParams) (s : ℚ) (h : SacOf p = some s) :
    SacList p = some [s] := by
  unfold SacOf at h
  rcases hS : SacList p with _ | l
  · rw [hS] at h
    simp at h
  · rw [hS] at h
    rcases l with _ | ⟨a, _ | ⟨b, t⟩⟩
    · simp at h
    · simp only [Option.some.injEq] at h
      rw [h]
    · simp at h

/-- Broadcasting any power matrix against a length-1 `Sac` keeps the
power matrix's range length. -/
theorem svWidth_one (m : ℕ) : svWidth m 1 = some m := by
  unfold svWidth
  by_cases h : m = 1
  · rw [if_pos h]
  · rw [if_neg h, if_neg h, if_pos rfl]

/-- With no exact pulse-length match the fancy index is empty, so `Sac`
is the empty array. -/
theorem SacList_of_no_match (p : CalParams)
    (h : ∀ x ∈ p.pulselengthtable, x ≠ p.pulselength) : SacList p = some [] := by
  have hidx : sacIndices p = [] := by
    unfold sacIndices
    rw [List.filter_eq_nil_iff]
    intro i hi
    rw [List.mem_range] at hi
    rw [decide_eq_true_eq, List.getD_eq_getElem _ _ hi]
    exact h _ (List.getElem_mem hi)
  unfold SacList
  rw [hidx, if_pos (by simp)]
  simp

/-- C2: for a channel whose Sa-correction lookup yields `sac`, the Sv
converter produces a matrix whose entry at reversed range index `m-1-k`
(the reversal of source line 535: index 0 becomes the deepest sample) is
`power_dB[k,ping] + TVG[k] + 2*alpha*rc[k] - CSv - Sac`, with
`dR = c*t/2`, wavelength `c/f`, `r[k] = k*dR`, `rc[k] = max 0 (r[k]-2*dR)`,
`TVG[k] = 0` where `rc[k] = 0` and `20*log10(rc[k])` otherwise, and
`CSv = 10*log10(pt*(10^(G/10))^2*wavelength^2*c*tau*10^(phi/10)/(32*pi^2))`,
each formula spelled out exactly as the claim states it. -/
theorem C2_power2Sv_formula (p : CalParams) (m : ℕ) (powerDb : ℕ → ℕ → ℝ)
    (k ping : ℕ) (sac : ℚ) (hsac : SacOf p = some sac) (hk : k < m) :
    ∃ f, power2Sv_chan p m powerDb = some f ∧
      f (m - 1 - k) ping =
        powerDb k ping +
        (if max 0 ((k : ℚ) * (p.soundvelocity * p.sampleinterval / 2) -
             2 * (p.soundvelocity * p.sampleinterval / 2)) = 0 then (0 : ℝ)
         else 20 * Real.logb 10
           ((max 0 ((k : ℚ) * (p.soundvelocity * p.sampleinterval / 2) -
             2 * (p.soundvelocity * p.sampleinterval / 2)) : ℚ) : ℝ)) +
        2 * (p.absorptioncoefficient : ℝ) *
          ((max 0 ((k : ℚ) * (p.soundvelocity * p.sampleinterval / 2) -
             2 * (p.soundvelocity * p.sampleinterval / 2)) : ℚ) : ℝ) -
        10 * Real.logb 10
          ((p.transmitpower * (Real.rpow 10 ((p.gain : ℝ) / 10)) ^ 2 *
            ((p.soundvelocity / p.frequency : ℚ) : ℝ) ^ 2 *
            p.soundvelocity * p.pulselength *
            Real.rpow 10 ((p.equivalentbeamangle : ℝ) / 10)) / (32 * Real.pi ^ 2)) -
        (sac : ℝ) := by
  have hSL := SacList_eq_of_SacOf p sac hsac
  refine ⟨fun k ping =>
      let j := m - 1 - k
      let jm := if m = 1 then 0 else j
      let js := if ([sac] : List ℚ).length = 1 then 0 else j
      powerDb jm ping + TVGof p jm +
        2 * (p.absorptioncoefficient : ℝ) * (rangeCorrected p jm : ℝ) -
        CSvOf p - (([sac] : List ℚ).getD js 0 : ℝ), ?_, ?_⟩
  · unfold power2Sv_chan
    rw [hSL]
    dsimp only
    simp only [List.length_singleton]
    rw [svWidth_one m]
    rfl
  · simp only [List.length_singleton]
    have hjm : (if m = 1 then 0 else m - 1 - (m - 1 - k)) = k := by
      split <;> omega
    rw [hjm]
    have hjs : (if (1 : ℕ) = 1 then 0 else m - 1 - (m - 1 - k)) = 0 := if_pos rfl
    try rw [hjs]
    try simp only [List.getD_cons_zero]
    unfold TVGof rangeCorrected dRof CSvOf wvlen
    rfl

/-- C2 witness: the formula at a concrete calibration, matrix size and
index. -/
theorem C2_power2Sv_formula_witness :
    ∃ f, power2Sv_chan testCal 3 (fun _ _ => 0) = some f ∧
      f (3 - 1 - 1) 0 =
        (fun (_ _ : ℕ) => (0 : ℝ)) 1 0 +
        (if max 0 ((1 : ℚ) * (testCal.soundvelocity * testCal.sampleinterval / 2) -
             2 * (testCal.soundvelocity * testCal.sampleinterval / 2)) = 0 then (0 : ℝ)
         else 20 * Real.logb 10
           ((max 0 ((1 : ℚ) * (testCal.soundvelocity * testCal.sampleinterval / 2) -
             2 * (testCal.soundvelocity * testCal.sampleinterval / 2)) : ℚ) : ℝ)) +
        2 * (testCal.absorptioncoefficient : ℝ) *
          ((max 0 ((1 : ℚ) * (testCal.soundvelocity * testCal.sampleinterval / 2) -
             2 * (testCal.soundvelocity * testCal.sampleinterval / 2)) : ℚ) : ℝ) -
        10 * Real.logb 10
          ((testCal.transmitpower * (Real.rpow 10 ((testCal.gain : ℝ) / 10)) ^ 2 *
            ((testCal.soundvelocity / testCal.frequency : ℚ) : ℝ) ^ 2 *
            testCal.soundvelocity * testCal.pulselength *
            Real.rpow 10 ((testCal.equivalentbeamangle : ℝ) / 10)) / (32 * Real.pi ^ 2)) -
        ((2 * testCal.sacorrectiontable.getD 1 0 : ℚ) : ℝ) :=
  C2_power2Sv_formula testCal 3 (fun _ _ => 0) 1 0
    (2 * testCal.sacorrectiontable.getD 1 0) rfl (by decide)

/-- C9 counterexample: a channel whose pulse length matches no table entry
does not always fail — against a power matrix with a single range sample
(`m = 1`) the empty `Sac` broadcasts legally and the channel's conversion
silently succeeds, producing a zero-row Sv matrix, where the claim
predicts an error. -/
theorem C9_counterexample :
    (∀ x ∈ testCalNoMatch.pulselengthtable, x ≠ testCalNoMatch.pulselength) ∧
    power2Sv_rows testCalNoMatch 1 = some 0 ∧
    power2Sv_chan testCalNoMatch 1 (fun _ _ => 0) ≠ none := by
  refine ⟨by decide, by decide, ?_⟩
  have h1 : SacList testCalNoMatch = some [] := by decide
  unfold power2Sv_chan
  rw [h1]
  dsimp only
  simp [svWidth]

/-- C9 (amended): when no pulse-length-table entry equals the channel's
pulse length, no Sa correction is silently defaulted: against a power
matrix with at least 2 range samples the empty `Sac` fails to broadcast
and the channel's Sv conversion fails as an error, while with at most one
range sample the broadcast degenerates and the channel silently yields an
empty (zero-row) Sv matrix; when the lookup yields exactly the index `i`
(inside the Sa table), the correction is `Sac = 2 * sacorrectiontable[i]`
and the conversion succeeds with the full `m` range rows. -/
theorem C9_sa_correction_lookup :
    (∀ (p : CalParams) (m : ℕ) (powerDb : ℕ → ℕ → ℝ),
       (∀ x ∈ p.pulselengthtable, x ≠ p.pulselength) → 2 ≤ m →
       power2Sv_chan p m powerDb = none ∧ power2Sv_rows p m = none) ∧
    (∀ (p : CalParams) (m : ℕ) (powerDb : ℕ → ℕ → ℝ),
       (∀ x ∈ p.pulselengthtable, x ≠ p.pulselength) → m ≤ 1 →
       power2Sv_rows p m = some 0 ∧ ∃ f, power2Sv_chan p m powerDb = some f) ∧
    (∀ (p : CalParams) (i : ℕ),
       sacIndices p = [i] → i < p.sacorrectiontable.length →
       SacOf p = some (2 * p.sacorrectiontable.getD i 0) ∧
       ∀ (m : ℕ) (powerDb : ℕ → ℕ → ℝ),
         power2Sv_rows p m = some m ∧ ∃ f, power2Sv_chan p m powerDb = some f) := by
  refine ⟨?_, ?_, ?_⟩
  · intro p m powerDb h hm
    have hSL := SacList_of_no_match p h
    have hw : svWidth m 0 = none := by
      unfold svWidth
      rw [if_neg (by omega), if_neg (by omega), if_neg (by omega)]
    constructor
    · unfold power2Sv_chan
      rw [hSL]
      dsimp only
      simp only [List.length_nil]
      rw [hw]
      rfl
    · unfold power2Sv_rows
      rw [hSL]
      show svWidth m (List.length ([] : List ℚ)) = none
      simp only [List.length_nil]
      exact hw
  · intro p m powerDb h hm
    have hSL := SacList_of_no_match p h
    have hw : svWidth m 0 = some 0 := by
      have hm01 : m = 0 ∨ m = 1 := by omega
      rcases hm01 with rfl | rfl
      · decide
      · decide
    constructor
    · unfold power2Sv_rows
      rw [hSL]
      show svWidth m (List.length ([] : List ℚ)) = some 0
      simp only [List.length_nil]
      exact hw
    · unfold power2Sv_chan
      rw [hSL]
      dsimp only
      simp only [List.length_nil]
      rw [hw]
      exact ⟨_, rfl⟩
  · intro p i hidx hlen
    have hbound : ∀ j ∈ sacIndices p, j < p.sacorrectiontable.length := by
      rw [hidx]
      intro j hj
      rw [List.mem_singleton] at hj
      subst hj
      exact hlen
    have hSL : SacList p = some [2 * p.sacorrectiontable.getD i 0] := by
      unfold SacList
      rw [if_pos hbound, hidx]
      simp
    refine ⟨?_, ?_⟩
    · unfold SacOf
      rw [hSL]
    · intro m powerDb
      constructor
      · unfold power2Sv_rows
        rw [hSL]
        show svWidth m (List.length [2 * p.sacorrectiontable.getD i 0]) = some m
        simp only [List.length_singleton]
        exact svWidth_one m
      · unfold power2Sv_chan
        rw [hSL]
        dsimp only
        simp only [List.length_singleton]
        rw [svWidth_one m]
        exact ⟨_, rfl⟩

/-- C9 witness: against 4 range samples the no-match channel errors out;
against 1 it silently yields the zero-row Sv; the exact match at index 1
gives `Sac = 2 * sacorrectiontable[1]` and a full-height conversion. -/
theorem C9_sa_correction_lookup_witness :
    (power2Sv_chan testCalNoMatch 4 (fun _ _ => 0) = none ∧
      power2Sv_rows testCalNoMatch 4 = none) ∧
    (power2Sv_rows testCalNoMatch 1 = some 0 ∧
      ∃ f, power2Sv_chan testCalNoMatch 1 (fun _ _ => 0) = some f) ∧
    (SacOf testCal = some (2 * testCal.sacorrectiontable.getD 1 0) ∧
      power2Sv_rows testCal 5 = some 5 ∧
      ∃ f, power2Sv_chan testCal 5 (fun _ _ => 0) = some f) :=
  ⟨C9_sa_correction_lookup.1 testCalNoMatch 4 (fun _ _ => 0) (by decide) (by decide),
   C9_sa_correction_lookup.2.1 testCalNoMatch 1 (fun _ _ => 0) (by decide) (by decide),
   (C9_sa_correction_lookup.2.2 testCal 1 (by decide) (by decide)).1,
   ((C9_sa_correction_lookup.2.2 testCal 1 (by decide) (by decide)).2 5
     (fun _ _ => 0)).1,
   ((C9_sa_correction_lookup.2.2 testCal 1 (by decide) (by decide)).2 5
     (fun _ _ => 0)).2⟩

/-- C4: the decoder accepts an encoded sample datagram exactly when
`0 <= channel <= transducer_count`: in range it returns the decoded record,
out of range it raises the non-fatal `InvalidTransducer` skip having read
only the 88-byte struct; and on any skip the scan loop continues from the
decoder's stop offset with the decoded-sample accumulator (the ping
aggregator's whole input) unchanged, so a rejected datagram reaches no
ping, metadata, or power matrix. -/
theorem C4_channel_validation :
    (∀ (d : RawSample) (pw : List ℤ) (ab : List ℕ) (tr tc : ℤ),
      d.InRange → I32Range tr → (∀ z ∈ pw, I16Range z) → d.count = (pw.length : ℤ) →
      (1 < d.mode → ab.length = 2 * pw.length) → (¬ 1 < d.mode → ab = []) →
      ((0 ≤ d.channel_number ∧ d.channel_number ≤ tc) →
        process_sample (encodeDatagram d pw ab tr) 0 tc =
          .ok d.channel_number (ntpOf d) d pw (decide (d.length1 ≠ tr))
            (SAMPLE_STRUCT_SIZE + 2 * pw.length + ab.length + 4)) ∧
      ((d.channel_number < 0 ∨ tc < d.channel_number) →
        process_sample (encodeDatagram d pw ab tr) 0 tc =
          .invalidTransducer SAMPLE_STRUCT_SIZE)) ∧
    (∀ (data : List ℕ) (transducer_count : ℤ) (fuel pos p nxt : ℕ)
       (acc : List Decoded),
      scanExhausted data pos = false →
      findSig ((data.drop pos).take BLOCK_SIZE) = some p →
      process_sample data (pos + p - LENGTH_SIZE) transducer_count =
        .invalidTransducer nxt →
      parse_echogram_scan data transducer_count (fuel + 1) pos acc =
        parse_echogram_scan data transducer_count fuel nxt acc) := by
  constructor
  · intro d pw ab tr tc hr htr hpw hcnt hab1 hab2
    constructor
    · intro hch
      have := process_sample_encodeDatagram (encodeDatagram d pw ab tr) 0 d pw ab tr tc []
        (by simp) hr htr hpw hcnt hab1 hab2 hch.1 hch.2
      simpa using this
    · intro hch
      have h2 : (encodeDatagram d pw ab tr).drop 0 =
          encodeStruct d ++ (encodePower pw ++ (ab ++ le32i tr)) := by
        rw [List.drop_zero]
        simp only [encodeDatagram, List.append_assoc]
      have hd : decodeStruct ((encodeDatagram d pw ab tr).drop 0) =
          some (d, encodePower pw ++ (ab ++ le32i tr)) := by
        rw [h2, decodeStruct_encodeStruct d hr]
      unfold process_sample
      rw [hd]
      dsimp only
      rw [if_pos hch]
      norm_num
  · intro data tc fuel pos p nxt acc hex hfind hdec
    rw [parse_scan_succ, hex, if_neg Bool.false_ne_true, hfind]
    dsimp only
    rw [hdec]

/-- C4 witness: channels −1 and `transducer_count + 1 = 4` are rejected as
skips after the 88-byte struct, and the scan loop then just continues
there. -/
theorem C4_channel_validation_witness :
    process_sample (encodeDatagram (testSample (-1)) [100, -5] [] 100) 0 3 =
      .invalidTransducer SAMPLE_STRUCT_SIZE ∧
    process_sample (encodeDatagram (testSample 4) [100, -5] [] 100) 0 3 =
      .invalidTransducer SAMPLE_STRUCT_SIZE ∧
    parse_echogram_scan (encodeDatagram (testSample (-1)) [100, -5] [] 100) 3 2 0 [] =
      parse_echogram_scan (encodeDatagram (testSample (-1)) [100, -5] [] 100) 3 1
        SAMPLE_STRUCT_SIZE [] :=
  ⟨((C4_channel_validation.1 (testSample (-1)) [100, -5] [] 100 3 (by decide) (by decide)
      (by decide) (by decide) (by decide) (by decide)).2 (by decide)),
   ((C4_channel_validation.1 (testSample 4) [100, -5] [] 100 3 (by decide) (by decide)
      (by decide) (by decide) (by decide) (by decide)).2 (by decide)),
   (C4_channel_validation.2 (encodeDatagram (testSample (-1)) [100, -5] [] 100) 3 1 0 4
      SAMPLE_STRUCT_SIZE [] (by decide) (by decide) (by decide))⟩

/-- C6: a sample datagram whose trailing length field `tr` differs from the
leading `length1` decodes to exactly the record and power array the
matching-length datagram yields, with only the non-fatal warning flag
differing; the scan loop still yields the record to the aggregation stage
and finishes the file. -/
theorem C6_trailing_length_mismatch (d : RawSample) (pw : List ℤ) (ab : List ℕ)
    (tr tc : ℤ)
    (hr : d.InRange) (htr : I32Range tr) (hpw : ∀ z ∈ pw, I16Range z)
    (hcnt : d.count = (pw.length : ℤ))
    (hab1 : 1 < d.mode → ab.length = 2 * pw.length) (hab2 : ¬ 1 < d.mode → ab = [])
    (hch1 : 0 ≤ d.channel_number) (hch2 : d.channel_number ≤ tc)
    (hsig : [d.dt0, d.dt1, d.dt2, d.dt3] = SAMPLE_SIGNATURE)
    (hnosig : ∀ q < 4, ¬ sigAt (encodeDatagram d pw ab tr) q) :
    process_sample (encodeDatagram d pw ab tr) 0 tc =
      .ok d.channel_number (ntpOf d) d pw (decide (d.length1 ≠ tr))
        (SAMPLE_STRUCT_SIZE + 2 * pw.length + ab.length + 4) ∧
    process_sample (encodeDatagram d pw ab d.length1) 0 tc =
      .ok d.channel_number (ntpOf d) d pw false
        (SAMPLE_STRUCT_SIZE + 2 * pw.length + ab.length + 4) ∧
    ∀ fuel, 4 ≤ 4092 * fuel →
      parse_echogram_scan (encodeDatagram d pw ab tr) tc (fuel + 1) 0 [] =
        some [⟨d.channel_number, ntpOf d, d, pw⟩] := by
  refine ⟨?_, ?_, ?_⟩
  · have := process_sample_encodeDatagram (encodeDatagram d pw ab tr) 0 d pw ab tr tc []
      (by simp) hr htr hpw hcnt hab1 hab2 hch1 hch2
    simpa using this
  · have := process_sample_encodeDatagram (encodeDatagram d pw ab d.length1) 0 d pw ab
      d.length1 tc [] (by simp) hr hr.1 hpw hcnt hab1 hab2 hch1 hch2
    simpa using this
  · intro fuel hf
    have := scan_finds_datagram [] d pw ab tr tc hr htr hsig hpw hcnt hab1 hab2
      hch1 hch2 (by simpa using hnosig) fuel 0 [] (by simp) (by simpa using hf)
    simpa using this

/-- C6 witness: trailing length 101 against leading length 100 warns but
returns the same record as the matching datagram, and the scan still
yields it. -/
theorem C6_trailing_length_mismatch_witness :
    process_sample (encodeDatagram (testSample 1) [100, -5] [] 101) 0 3 =
      .ok 1 (ntpOf (testSample 1)) (testSample 1) [100, -5] true 96 ∧
    process_sample (encodeDatagram (testSample 1) [100, -5] [] 100) 0 3 =
      .ok 1 (ntpOf (testSample 1)) (testSample 1) [100, -5] false 96 ∧
    parse_echogram_scan (encodeDatagram (testSample 1) [100, -5] [] 101) 3 2 0 [] =
      some [⟨1, ntpOf (testSample 1), testSample 1, [100, -5]⟩] := by
  have h := C6_trailing_length_mismatch (testSample 1) [100, -5] [] 101 3
    (by decide) (by decide) (by decide) (by decide) (by decide) (by decide)
    (by decide) (by decide) (by decide) (by decide)
  refine ⟨?_, ?_, ?_⟩
  · have h1 := h.1
    simpa [testSample] using h1
  · have h2 := h.2.1
    simpa [testSample] using h2
  · have h3 := h.2.2 1 (by decide)
    simpa [testSample] using h3

/-- C5: for a stream holding exactly one well-formed sample datagram at an
arbitrary offset `k = pre.length` (any block straddling included), the scan
loop finds the signature, seeks back over the length prefix, decodes the
very record and power array that were encoded, and exits on exhaustion at
the next step, yielding exactly that one record. -/
theorem C5_scan_locates_and_decodes
    (pre : List ℕ) (d : RawSample) (pw : List ℤ) (ab : List ℕ) (tc : ℤ)
    (hr : d.InRange) (hsig : [d.dt0, d.dt1, d.dt2, d.dt3] = SAMPLE_SIGNATURE)
    (hpw : ∀ z ∈ pw, I16Range z) (hcnt : d.count = (pw.length : ℤ))
    (hab1 : 1 < d.mode → ab.length = 2 * pw.length) (hab2 : ¬ 1 < d.mode → ab = [])
    (hch1 : 0 ≤ d.channel_number) (hch2 : d.channel_number ≤ tc)
    (hnosig : ∀ q < pre.length + 4,
      ¬ sigAt (pre ++ encodeDatagram d pw ab d.length1) q) :
    ∀ fuel, pre.length + 4 ≤ 4092 * fuel →
      parse_echogram_scan (pre ++ encodeDatagram d pw ab d.length1) tc (fuel + 1) 0 [] =
        some [⟨d.channel_number, ntpOf d, d, pw⟩] := by
  intro fuel hf
  have := scan_finds_datagram pre d pw ab d.length1 tc hr hr.1 hsig hpw hcnt hab1 hab2
    hch1 hch2 hnosig fuel 0 [] (by omega) (by omega)
  simpa using this

/-- C5 witness: one datagram at offset 10 of an otherwise zero stream. -/
theorem C5_scan_locates_and_decodes_witness :
    parse_echogram_scan
        (List.replicate 10 0 ++ encodeDatagram (testSample 2) [100, -5] []
          (testSample 2).length1) 3 2 0 [] =
      some [⟨2, ntpOf (testSample 2), testSample 2, [100, -5]⟩] := by
  have := C5_scan_locates_and_decodes (List.replicate 10 0) (testSample 2) [100, -5] [] 3
    (by decide) (by decide) (by decide) (by decide) (by decide) (by decide)
    (by decide) (by decide) (by decide) 1 (by decide)
  simpa [testSample] using this

/-- C1: (i) a decoded sample whose time differs from the collecting time
discards the in-progress channel maps — the new maps hold only the new
sample and `last_time` moves on, so the incomplete ping is dropped for
good; (ii) a ping completes (its time is appended to the series) exactly
when the channel map reaches `transducer_count` entries; (iii) with
`transducer_count = 3`, channels {1,2} at time `T` then {1,2,3} at `T+1`
produce no completion and no metadata for `T`, completing only at `T+1`. -/
theorem C1_ping_aggregation :
    (∀ (tc : ℤ) (ft rp : String) (st : AggState) (d : Decoded) (st' : AggState),
       some d.time ≠ st.lastTime →
       stepDecoded tc ft rp st d = some st' →
       st'.lastTime = some d.time ∧
       st'.sampleTemp = [(d.channel, d.sample)] ∧
       st'.powerTemp = [(d.channel, d.power)]) ∧
    (∀ (tc : ℤ) (ft rp : String) (st : AggState) (d : Decoded) (st' : AggState),
       stepDecoded tc ft rp st d = some st' →
       (st'.dataTimes = st.dataTimes ++ [d.time] ↔
         (st'.sampleTemp.length : ℤ) = tc ∧ (st'.powerTemp.length : ℤ) = tc)) ∧
    (∀ (T : ℚ) (s1 s2 s1' s2' s3' : RawSample) (p1 p2 p1' p2' p3' : List ℤ)
       (ft rp : String),
       runAgg 3 ft rp [⟨1, T, s1, p1⟩, ⟨2, T, s2, p2⟩, ⟨1, T + 1, s1', p1'⟩,
           ⟨2, T + 1, s2', p2'⟩, ⟨3, T + 1, s3', p3'⟩] =
         some ⟨some (T + 1), [(1, s1'), (2, s2'), (3, s3')],
           [(1, p1'), (2, p2'), (3, p3')], [(1, [p1']), (2, [p2']), (3, [p3'])],
           [T + 1], some (buildMetadata ft rp [(1, s1'), (2, s2'), (3, s3')], T + 1)⟩) := by
  refine ⟨?_, ?_, ?_⟩
  · intro tc ft rp st d st' hne hstep
    have hd : discardIfNewTime st d.time =
        { st with sampleTemp := [], powerTemp := [], lastTime := some d.time } := by
      unfold discardIfNewTime
      rw [if_pos hne]
    simp only [stepDecoded, hd] at hstep
    simp only [dict_insert] at hstep
    split at hstep
    · split at hstep
      · obtain rfl := Option.some.inj hstep
        exact ⟨rfl, rfl, rfl⟩
      · exact absurd hstep (by simp)
    · obtain rfl := Option.some.inj hstep
      exact ⟨rfl, rfl, rfl⟩
  · intro tc ft rp st d st' hstep
    obtain ⟨hpd, hdt, hpart⟩ := discardIfNewTime_fields st d.time
    simp only [stepDecoded] at hstep
    split at hstep
    · rename_i hc
      split at hstep
      · obtain rfl := Option.some.inj hstep
        simp only [hdt]
        exact ⟨fun _ => hc, fun _ => trivial⟩
      · exact absurd hstep (by simp)
    · rename_i hc
      obtain rfl := Option.some.inj hstep
      simp only [hdt]
      constructor
      · intro habs
        exfalso
        have := congrArg List.length habs
        simp at this
      · intro hcc
        exact absurd hcc hc
  · intro T s1 s2 s1' s2' s3' p1 p2 p1' p2' p3' ft rp
    have hT : (T + 1 : ℚ) ≠ T := ne_of_gt (lt_add_one T)
    simp [runAgg, List.foldlM, stepDecoded, discardIfNewTime, dict_insert, appendColumns,
      initAggState, buildMetadata, hT]

/-- C1 witness: the drop-and-restart scenario at `T = 0` with concrete
samples. -/
theorem C1_ping_aggregation_witness :
    runAgg 3 "t" "p" [⟨1, 0, testSample 1, [7]⟩, ⟨2, 0, testSample 2, [8]⟩,
        ⟨1, 0 + 1, testSample 1, [9]⟩, ⟨2, 0 + 1, testSample 2, [10]⟩,
        ⟨3, 0 + 1, testSample 3, [11]⟩] =
      some ⟨some (0 + 1), [(1, testSample 1), (2, testSample 2), (3, testSample 3)],
        [(1, [9]), (2, [10]), (3, [11])], [(1, [[9]]), (2, [[10]]), (3, [[11]])],
        [0 + 1], some (buildMetadata "t" "p"
          [(1, testSample 1), (2, testSample 2), (3, testSample 3)], 0 + 1)⟩ :=
  C1_ping_aggregation.2.2 0 (testSample 1) (testSample 2) (testSample 1) (testSample 2)
    (testSample 3) [7] [8] [9] [10] [11] "t" "p"

/-- C3: metadata is captured once per file, from the first completed ping
only — once `power_data_dict` is non-empty, no step changes the particle
and the dict stays non-empty; on the first completion the particle is
built from the completing channel map (channels in dict order, one entry
per channel, `transducer_count` of them); and with `transducer_count = 3`
and channels {1,2,3} at one time `T`, exactly one completion occurs and
the metadata lists the three channels as 1,2,3 with each field array of
length 3 (and one fresh power column per channel). -/
theorem C3_first_ping_metadata :
    (∀ (tc : ℤ) (ft rp : String) (st : AggState) (d : Decoded) (st' : AggState),
       stepDecoded tc ft rp st d = some st' → st.powerData ≠ [] →
       st'.particleData = st.particleData ∧ st'.powerData ≠ []) ∧
    (∀ (tc : ℤ) (ft rp : String) (st : AggState) (d : Decoded) (st' : AggState),
       stepDecoded tc ft rp st d = some st' → st.powerData = [] →
       st'.dataTimes = st.dataTimes ++ [d.time] →
       st'.particleData = some (buildMetadata ft rp st'.sampleTemp, d.time) ∧
       (buildMetadata ft rp st'.sampleTemp).channels = st'.sampleTemp.map Prod.fst ∧
       ((buildMetadata ft rp st'.sampleTemp).channels.length : ℤ) = tc) ∧
    (∀ (T : ℚ) (s1 s2 s3 : RawSample) (p1 p2 p3 : List ℤ) (ft rp : String),
       runAgg 3 ft rp [⟨1, T, s1, p1⟩, ⟨2, T, s2, p2⟩, ⟨3, T, s3, p3⟩] =
         some ⟨some T, [(1, s1), (2, s2), (3, s3)], [(1, p1), (2, p2), (3, p3)],
           [(1, [p1]), (2, [p2]), (3, [p3])], [T],
           some (buildMetadata ft rp [(1, s1), (2, s2), (3, s3)], T)⟩ ∧
       (buildMetadata ft rp [(1, s1), (2, s2), (3, s3)]).channels = [1, 2, 3] ∧
       (buildMetadata ft rp [(1, s1), (2, s2), (3, s3)]).transducerDepth =
         [s1.transducer_depth, s2.transducer_depth, s3.transducer_depth] ∧
       (buildMetadata ft rp [(1, s1), (2, s2), (3, s3)]).frequency =
         [s1.frequency, s2.frequency, s3.frequency] ∧
       (buildMetadata ft rp [(1, s1), (2, s2), (3, s3)]).transmitPower =
         [s1.transmit_power, s2.transmit_power, s3.transmit_power] ∧
       (buildMetadata ft rp [(1, s1), (2, s2), (3, s3)]).pulseLength =
         [s1.pulse_length, s2.pulse_length, s3.pulse_length] ∧
       (buildMetadata ft rp [(1, s1), (2, s2), (3, s3)]).bandwidth =
         [s1.bandwidth, s2.bandwidth, s3.bandwidth] ∧
       (buildMetadata ft rp [(1, s1), (2, s2), (3, s3)]).sampleInterval =
         [s1.sample_interval, s2.sample_interval, s3.sample_interval] ∧
       (buildMetadata ft rp [(1, s1), (2, s2), (3, s3)]).soundVelocity =
         [s1.sound_velocity, s2.sound_velocity, s3.sound_velocity] ∧
       (buildMetadata ft rp [(1, s1), (2, s2), (3, s3)]).absorptionCoef =
         [s1.absorption_coefficient, s2.absorption_coefficient, s3.absorption_coefficient] ∧
       (buildMetadata ft rp [(1, s1), (2, s2), (3, s3)]).temperature =
         [s1.temperature, s2.temperature, s3.temperature]) := by
  refine ⟨?_, ?_, ?_⟩
  · intro tc ft rp st d st' hstep hne
    obtain ⟨hpd, hdt, hpart⟩ := discardIfNewTime_fields st d.time
    simp only [stepDecoded] at hstep
    split at hstep
    · split at hstep
      · rename_i pd1 heq
        obtain rfl := Option.some.inj hstep
        have hie : ¬ ((discardIfNewTime st d.time).powerData.isEmpty = true) := by
          rw [List.isEmpty_iff, hpd]
          exact hne
        rw [if_neg hie, hpd] at heq
        constructor
        · simp only [if_neg hie, hpart]
        · have hlen := appendColumns_length _ _ _ heq
          intro hnil
          dsimp only at hnil
          rw [hnil] at hlen
          simp only [List.length_nil] at hlen
          exact hne (List.length_eq_zero.1 hlen.symm)
      · exact absurd hstep (by simp)
    · obtain rfl := Option.some.inj hstep
      exact ⟨hpart, by rw [hpd]; exact hne⟩
  · intro tc ft rp st d st' hstep hnil hcomp
    obtain ⟨hpd, hdt, hpart⟩ := discardIfNewTime_fields st d.time
    simp only [stepDecoded] at hstep
    split at hstep
    · rename_i hc
      split at hstep
      · obtain rfl := Option.some.inj hstep
        have hie : (discardIfNewTime st d.time).powerData.isEmpty = true := by
          rw [List.isEmpty_iff, hpd]
          exact hnil
        refine ⟨by simp only [if_pos hie], buildMetadata_channels ft rp _, ?_⟩
        rw [buildMetadata_channels ft rp _]
        simpa using hc.1
      · exact absurd hstep (by simp)
    · rename_i hc
      obtain rfl := Option.some.inj hstep
      exfalso
      rw [hdt] at hcomp
      have := congrArg List.length hcomp
      simp at this
  · intro T s1 s2 s3 p1 p2 p3 ft rp
    refine ⟨?_, ?_, ?_, ?_, ?_, ?_, ?_, ?_, ?_, ?_, ?_⟩
    · simp [runAgg, List.foldlM, stepDecoded, discardIfNewTime, dict_insert,
        appendColumns, initAggState, buildMetadata]
    all_goals simp [buildMetadata, append_metadata, emptyMetadata]

/-- C3 witness: the single-completion scenario at `T = 0` with concrete
samples. -/
theorem C3_first_ping_metadata_witness :
    runAgg 3 "t" "p" [⟨1, 0, testSample 1, [7]⟩, ⟨2, 0, testSample 2, [8]⟩,
        ⟨3, 0, testSample 3, [9]⟩] =
      some ⟨some 0, [(1, testSample 1), (2, testSample 2), (3, testSample 3)],
        [(1, [7]), (2, [8]), (3, [9])], [(1, [[7]]), (2, [[8]]), (3, [[9]])], [0],
        some (buildMetadata "t" "p"
          [(1, testSample 1), (2, testSample 2), (3, testSample 3)], 0)⟩ ∧
    (buildMetadata "t" "p"
      [(1, testSample 1), (2, testSample 2), (3, testSample 3)]).channels = [1, 2, 3] :=
  ⟨(C3_first_ping_metadata.2.2 0 (testSample 1) (testSample 2) (testSample 3)
      [7] [8] [9] "t" "p").1,
   (C3_first_ping_metadata.2.2 0 (testSample 1) (testSample 2) (testSample 3)
      [7] [8] [9] "t" "p").2.1⟩

/-- C7 counterexample: after the ping {1,2,3} completes at time 0
(`data_times = [0]`), a further in-range sample datagram at the same time
with channel 0 — a channel not yet in the map — grows the channel map to 4
entries, so the completion branch does not fire again: the time series
stays `[0]` where the claim predicts `[0, 0]`. -/
theorem C7_counterexample :
    (runAgg 3 "t" "p" [testDecoded 1 0, testDecoded 2 0, testDecoded 3 0]).map
        AggState.dataTimes = some [0] ∧
    (runAgg 3 "t" "p" [testDecoded 1 0, testDecoded 2 0, testDecoded 3 0,
        testDecoded 0 0]).map AggState.dataTimes = some [0] ∧
    ¬ ((runAgg 3 "t" "p" [testDecoded 1 0, testDecoded 2 0, testDecoded 3 0,
        testDecoded 0 0]).map AggState.dataTimes = some [0, 0]) :=
  ⟨by decide, by decide, by decide⟩

/-- C7 (amended): after a ping completes, the per-time channel maps are not
reset, so a further sample datagram at the same timestamp whose channel is
already in the channel map keeps the map size at `transducer_count` and
the completion branch fires again — the timestamp is appended to the time
series a second time and every channel's power matrix gains one more
column (more than one PingComplete for a single timestamp); a same-time
datagram with an in-range channel missing from the map instead grows the
map past `transducer_count` and does not re-fire. -/
theorem C7_same_time_refire (tc : ℤ) (ft rp : String) (st : AggState) (d : Decoded)
    (hlast : st.lastTime = some d.time)
    (hlenS : (st.sampleTemp.length : ℤ) = tc)
    (hlenP : (st.powerTemp.length : ℤ) = tc)
    (hsortS : (st.sampleTemp.map Prod.fst).Sorted (· < ·))
    (hsortP : (st.powerTemp.map Prod.fst).Sorted (· < ·))
    (hmemS : d.channel ∈ st.sampleTemp.map Prod.fst)
    (hmemP : d.channel ∈ st.powerTemp.map Prod.fst)
    (hkeys : st.powerData.map Prod.fst = st.powerTemp.map Prod.fst)
    (hne : st.powerData ≠ []) :
    ∃ st', stepDecoded tc ft rp st d = some st' ∧
      st'.sampleTemp.length = st.sampleTemp.length ∧
      st'.dataTimes = st.dataTimes ++ [d.time] ∧
      st'.particleData = st.particleData ∧
      st'.powerData.map (fun kv => (kv.1, kv.2.length)) =
        st.powerData.map (fun kv => (kv.1, kv.2.length + 1)) := by
  have hd : discardIfNewTime st d.time = st := by
    unfold discardIfNewTime
    rw [if_neg (by rw [hlast]; simp)]
  have hkP : (dict_insert d.channel d.power st.powerTemp).map Prod.fst =
      st.powerTemp.map Prod.fst :=
    dict_insert_keys_of_mem d.channel d.power st.powerTemp hsortP hmemP
  have hie : ¬ (st.powerData.isEmpty = true) := by
    rw [List.isEmpty_iff]
    exact hne
  have hmem : ∀ q ∈ dict_insert d.channel d.power st.powerTemp,
      q.1 ∈ st.powerData.map Prod.fst := by
    intro q hq
    rw [hkeys, ← hkP]
    exact List.mem_map_of_mem Prod.fst hq
  have happ := appendColumns_eq (dict_insert d.channel d.power st.powerTemp)
    st.powerData hmem
  simp only [stepDecoded, hd]
  rw [if_pos ⟨by rwa [dict_insert_length_of_mem d.channel d.sample st.sampleTemp hsortS
      hmemS], by rwa [dict_insert_length_of_mem d.channel d.power st.powerTemp hsortP
      hmemP]⟩]
  rw [if_neg hie, if_neg hie, happ]
  refine ⟨_, rfl, ?_, rfl, rfl, ?_⟩
  · exact dict_insert_length_of_mem d.channel d.sample st.sampleTemp hsortS hmemS
  · rw [List.map_map]
    apply List.map_congr_left
    intro kv hkv
    simp only [Function.comp_apply, List.length_append, List.length_map]
    have hone : ((dict_insert d.channel d.power st.powerTemp).filter
        (fun q => q.1 = kv.1)).length = 1 := by
      apply filter_key_length_one
      · rw [hkP]
        exact hsortP.nodup
      · rw [hkP, ← hkeys]
        exact List.mem_map_of_mem Prod.fst hkv
    rw [hone]

/-- C7 witness: the amended re-fire behaviour at a concrete post-ping
state fed channel 2 again at time 0. -/
theorem C7_same_time_refire_witness :
    ∃ st', stepDecoded 3 "t" "p" testAggState (testDecoded 2 0) = some st' ∧
      st'.sampleTemp.length = testAggState.sampleTemp.length ∧
      st'.dataTimes = testAggState.dataTimes ++ [(testDecoded 2 0).time] ∧
      st'.particleData = testAggState.particleData ∧
      st'.powerData.map (fun kv => (kv.1, kv.2.length)) =
        testAggState.powerData.map (fun kv => (kv.1, kv.2.length + 1)) :=
  C7_same_time_refire 3 "t" "p" testAggState (testDecoded 2 0) (by decide) (by decide)
    (by decide) (by decide) (by decide) (by decide) (by decide) (by decide) (by decide)
